import Mathlib

/-!
Verification of the MIL `Operation` node layer
(`coremltools/converters/mil/mil/operation.py`).

The embedding models symbolic numpy arrays as a shape together with a
flattened (row-major) entry list; entries are either concrete integers or
unresolved sympy-style symbols, identified by an index (two symbols are
equal exactly when their indices agree, matching sympy `Symbol` equality).
Collaborator code that is not part of the sampled source (`var.py`,
`input_type.py`, `types/symbolic.py`, `types` compatibility predicates) is
modelled from the spec; every such definition carries a doc comment
starting with `Modelled from the spec:`.
-/

set_option autoImplicit false

namespace MILOp

/-- An entry of a possibly-symbolic array: a concrete integer or an
unresolved symbol.  Symbol equality is by identity of the symbol index,
mirroring sympy `Symbol` equality used through `is_symbolic`. -/
inductive SEntry where
  | intVal : Int → SEntry
  | sym : Nat → SEntry
deriving DecidableEq, Repr

/-- Modelled from the spec: the symbolic algebra's `is_symbolic(x)`
predicate on a single scalar entry (spec section 6). -/
def SEntry.is_symbolic : SEntry → Bool
  | .sym _ => true
  | .intVal _ => false

/-- A possibly-symbolic numpy array: explicit shape plus flattened
(row-major) data. -/
structure SArr where
  shape : List Nat
  data : List SEntry
deriving DecidableEq, Repr

/-- Modelled from the spec: `any_symbolic` over a whole array — true when
any entry is an unresolved symbol. -/
def SArr.any_symbolic (a : SArr) : Bool :=
  a.data.any SEntry.is_symbolic

/-- Modelled from the spec: `any_symbolic` lifted to an optional value;
a missing value contains no symbol. -/
def anySymbolicOpt : Option SArr → Bool
  | none => false
  | some a => a.any_symbolic

/-- Embeds `_is_compatible_symbolic_array(a, b)`: shapes must be equal;
after flattening, every position where both entries are non-symbolic must
hold equal entries. -/
def _is_compatible_symbolic_array (a b : SArr) : Bool :=
  if a.shape ≠ b.shape then
    false
  else
    (a.data.zip b.data).all fun tv =>
      if ¬ tv.1.is_symbolic ∧ ¬ tv.2.is_symbolic then tv.1 = tv.2 else true

/-- Embeds the numpy elementwise test `np.any(sym_val.val != out_var.sym_val)`
used by `type_value_inference`.  Equal shapes compare positionwise on the
flattened data.  Shapes of total size one broadcast against the other
operand, as numpy does.  General multi-dimensional broadcasting beyond the
size-one case is not modelled (the branch returns `true`; no theorem
exercises it). -/
def npAnyNe (a b : SArr) : Bool :=
  if a.shape = b.shape then
    (a.data.zip b.data).any fun tv => tv.1 ≠ tv.2
  else if a.data.length = 1 then
    b.data.any fun v => (a.data.headD (.intVal 0)) ≠ v
  else if b.data.length = 1 then
    a.data.any fun t => t ≠ (b.data.headD (.intVal 0))
  else
    true

/-- The symbolic builtin types the operation layer manipulates: tensors
(element-type id plus possibly-symbolic shape) and lists of tensors
(element type, initial length, dynamic-length flag), mirroring
`types.is_tensor` / `types.is_list` and the `sym_type.T` payloads read by
`type_value_inference`.  The `ComplexVar` real/imaginary payload carried by
complex-typed tensors is not modelled (no claim touches it). -/
inductive MILType where
  | tensor (elem : Nat) (shape : List SEntry) : MILType
  | list (elemType : MILType) (initLength : Option Nat) (dynamicLength : Bool) : MILType
deriving DecidableEq, Repr

/-- Modelled from the spec: the symbolic algebra's `types_compatible(a, b)`
(`types.is_compatible_type` in the source), the symbolic-tolerant equality
of section 6: tensors agree on element type and rank, and on every
dimension where both sides are concrete; lists compare element types the
same way. -/
def is_compatible_type : MILType → MILType → Bool
  | .tensor e1 s1, .tensor e2 s2 =>
      e1 = e2 ∧ s1.length = s2.length ∧
        (s1.zip s2).all fun ab =>
          ab.1.is_symbolic ∨ ab.2.is_symbolic ∨ ab.1 = ab.2
  | .list t1 _ _, .list t2 _ _ => is_compatible_type t1 t2
  | _, _ => false

theorem mem_zip_self_eq {α : Type} (l : List α) : ∀ ab ∈ l.zip l, ab.1 = ab.2 := by
  induction l with
  | nil => intro ab h; cases h
  | cons x xs ih =>
      intro ab h
      rw [List.zip_cons_cons] at h
      rcases List.mem_cons.mp h with h | h
      · subst h; rfl
      · exact ih ab h

theorem is_compatible_type_refl (t : MILType) : is_compatible_type t t = true := by
  induction t with
  | tensor e s =>
      simp only [is_compatible_type, List.all_eq_true, decide_eq_true_eq,
        Bool.or_eq_true, true_and]
      intro ab hab
      exact Or.inr (Or.inr (mem_zip_self_eq s ab hab))
  | list t il dl ih => simpa [is_compatible_type] using ih

/-- Modelled from the spec: a Value Node (`Var` in `var.py`): name, symbolic
type, optional possibly-symbolic value, and the consumer registry
(`child_ops`), kept as the ordered multiset of consumer operation ids with
paired attach/detach calls (spec sections 3 and 9).  The producer
back-reference and the replaceability flag are not consulted by any claim. -/
structure VarNode where
  name : String
  sym_type : MILType
  sym_val : Option SArr
  child_ops : List Nat
deriving DecidableEq, Repr

/-- Modelled from the spec: `Var.val` — the materialized (concrete) value,
present only when a symbolic value exists and carries no unresolved
symbol. -/
def VarNode.val (v : VarNode) : Option SArr :=
  match v.sym_val with
  | none => none
  | some a => if a.any_symbolic then none else some a

/-- The var heap.  Operation states refer to Value Nodes by id, so that
rebinding one slot mutates consumer registries visible through every other
reference to the same node, as with Python's shared `Var` objects. -/
abbrev Store : Type := List (Nat × VarNode)

def storeGet (st : Store) (id : Nat) : Option VarNode :=
  match st.find? (fun p => p.1 = id) with
  | some p => some p.2
  | none => none

def dummyVar : VarNode := ⟨"", .tensor 0 [], none, []⟩

/-- Heap read with a default node for dangling ids; every theorem's
hypotheses keep the touched ids present in the heap. -/
def storeGetD (st : Store) (id : Nat) : VarNode :=
  (storeGet st id).getD dummyVar

def storeSet (st : Store) (id : Nat) (v : VarNode) : Store :=
  st.map fun p => if p.1 = id then (id, v) else p

/-- Modelled from the spec: `Var.add_child_op` — attach the operation to the
node's consumer registry (appends one occurrence). -/
def addChildOp (st : Store) (id : Nat) (opId : Nat) : Store :=
  let v := storeGetD st id
  storeSet st id { v with child_ops := v.child_ops ++ [opId] }

/-- Modelled from the spec: `Var.remove_child_op` — detach the operation from
the node's consumer registry (removes one occurrence; the missing-occurrence
error path is not consulted by any claim). -/
def removeChildOp (st : Store) (id : Nat) (opId : Nat) : Store :=
  let v := storeGetD st id
  storeSet st id { v with child_ops := v.child_ops.erase opId }

/-- Modelled from the spec: an Input Contract Entry (`input_type.py`): a
tensor-typed input with an accepted element-type domain (to be resolved from
the named domain id when the explicit set is empty), or an ordered-tuple
input. -/
inductive InKind where
  | tensor (domain : List Nat) (domainId : String)
  | tupleIn
deriving DecidableEq, Repr

structure ISpec where
  optional : Bool
  kind : InKind
deriving DecidableEq, Repr

/-- A binding supplied for one input slot: a single Value Node id or an
ordered tuple of ids. -/
inductive InRef where
  | single (id : Nat)
  | tuple (ids : List Nat)
deriving DecidableEq, Repr

/-- A bound input slot after resolving ids through the heap, as the kind's
inference functions see it. -/
inductive BoundIn where
  | single (v : VarNode)
  | tuple (vs : List VarNode)
deriving DecidableEq, Repr

abbrev Resolved : Type := List (String × Option BoundIn)

/-- The per-kind capability record (the `Operation` subclass surface):
declared input contract, type domains, type inference, optional value
inference with its `precondition` allow mask, optional output names.  The
inference functions are pure functions of the operation's resolved bound
inputs, as the Python methods are of `self._input_vars`. -/
structure OpKind where
  opType : String
  inputTypes : List (String × ISpec)
  typeDomains : List (String × List Nat)
  typeInf : Resolved → List MILType
  valueInf : Option (Resolved → List (Option SArr))
  allow : Nat
  outNames : Option (List String)

/-- The mutable part of an Operation node: its name, id (the identity used
in consumer registries), the ordered slot map from input name to bound
Value Node ids, and the output Value Node ids (`none` before the first
inference, mirroring `self._output_vars = None`). -/
structure OpState where
  name : String
  opId : Nat
  inputVars : List (String × Option InRef)
  outputVars : Option (List Nat)
deriving DecidableEq, Repr

def resolveRef (st : Store) : InRef → BoundIn
  | .single id => .single (storeGetD st id)
  | .tuple ids => .tuple (ids.map (storeGetD st))

def resolveInputs (st : Store) (op : OpState) : Resolved :=
  op.inputVars.map fun p => (p.1, p.2.map (resolveRef st))

def lookupResolved (res : Resolved) (name : String) : Option BoundIn :=
  match res.find? (fun p => p.1 = name) with
  | some p => p.2
  | none => none

def VALUE : Nat := 1
def SYMBOL : Nat := 2
def NONE : Nat := 4
def ALL : Nat := 7

/-- Embeds `process(v, has_value, has_symbol, has_none)` inside
`precondition`: a symbolic value sets the symbol bit, a missing concrete
value sets the none bit, otherwise the value bit.  The accumulator is
(has_value, has_symbol, has_none). -/
def processVar (v : VarNode) (acc : Bool × Bool × Bool) : Bool × Bool × Bool :=
  if anySymbolicOpt v.sym_val then (acc.1, true, acc.2.2)
  else if v.val = none then (acc.1, acc.2.1, true)
  else (true, acc.2.1, acc.2.2)

/-- One iteration of the accumulation loop of the `precondition` wrapper:
optional inputs are skipped entirely, tuple inputs are expanded
element-wise, single inputs processed once.  An unbound or
multiplicity-mismatched slot contributes nothing (inference only runs once
validation has bound every required slot with matching multiplicity). -/
def classifyStep (res : Resolved) (acc : Bool × Bool × Bool)
    (p : String × ISpec) : Bool × Bool × Bool :=
  if p.2.optional then acc
  else
    match p.2.kind, lookupResolved res p.1 with
    | .tupleIn, some (.tuple vs) => vs.foldl (fun a v => processVar v a) acc
    | .tupleIn, _ => acc
    | _, some (.single v) => processVar v acc
    | _, _ => acc

/-- Embeds the accumulation loop of the `precondition` wrapper: walk the
declared input types in order and fold the three classification bits. -/
def classifyInputs (inputTypes : List (String × ISpec)) (res : Resolved) :
    Bool × Bool × Bool :=
  inputTypes.foldl (classifyStep res) (false, false, false)

inductive GateSignal where
  | notImplemented
deriving DecidableEq, Repr

/-- Embeds the decorated `value_inference` as `_auto_val` calls it: the
`NotImplementedError` raised when value inference is unimplemented for the
kind (stage 1), or when an accumulated classification bit is outside the
declared `allow` mask (the `precondition` wrapper, stage 2); otherwise the
kind's value inference runs on the bound inputs. -/
def valueInferenceGated (k : OpKind) (res : Resolved) :
    Except GateSignal (List (Option SArr)) :=
  match k.valueInf with
  | none => .error .notImplemented
  | some f =>
      let acc := classifyInputs k.inputTypes res
      if acc.1 ∧ k.allow &&& VALUE = 0 then .error .notImplemented
      else if acc.2.1 ∧ k.allow &&& SYMBOL = 0 then .error .notImplemented
      else if acc.2.2 ∧ k.allow &&& NONE = 0 then .error .notImplemented
      else .ok (f res)

/-- Embeds `Operation._auto_val`: the `NotImplementedError` from the gate
or from an unimplemented `value_inference` is caught and downgraded to an
all-`none` result; a `none` among the candidates likewise degrades every
output's value to `none`; otherwise each candidate becomes the
corresponding output's value (the builtin-value wrapper and the `mil_list`
unwrapping collapse to the identity in this model). -/
def _auto_val (k : OpKind) (res : Resolved) (output_types : List MILType) :
    List (Option SArr) :=
  match valueInferenceGated k res with
  | .error _ => output_types.map fun _ => none
  | .ok vals =>
      if vals.any (fun v => v = none) then output_types.map fun _ => none
      else (output_types.zip vals).map fun tv => tv.2

/-- The error taxonomy of the operation layer, one constructor per distinct
`raise` site relevant to the claims; each carries the context the source
interpolates into the message. -/
inductive MILErr where
  | unknownInput (name opType : String)
  | unresolvedDomain (domainId : String)
  | contractViolation (opName slot : String)
  | incompatibleRebind (newName oldName : String)
  | missingRequiredInput (opName slot : String)
  | typeDrift (varName opName : String)
  | valueDrift (varName opName : String)
  | unsupportedRank (opName opType : String) (rank : Nat)
  | indexErr
deriving DecidableEq, Repr

def lookupSlot (slots : List (String × Option InRef)) (name : String) :
    Option InRef :=
  match slots.find? (fun p => p.1 == name) with
  | some p => p.2
  | none => none

def elemOf : MILType → Nat
  | .tensor e _ => e
  | .list t _ _ => elemOf t

/-- Modelled from the spec: `input_spec.validate_inputs` (section 4.1) —
every bound name must exist in the contract, tuple slots receive ordered
tuples and single slots single nodes, and a single tensor slot's bound
node must carry an element type inside the slot's accepted domain
(tuple elements are accepted as bound; their per-element domain check is
not consulted by any claim). -/
def validate_inputs (inputTypes : List (String × ISpec)) (st : Store)
    (opName : String) : List (String × InRef) → Except MILErr Unit
  | [] => .ok ()
  | kv :: rest =>
      match inputTypes.find? (fun p => p.1 == kv.1) with
      | none => .error (.contractViolation opName kv.1)
      | some p =>
          match p.2.kind, kv.2 with
          | .tensor dom _, .single id =>
              if dom.contains (elemOf (storeGetD st id).sym_type) then
                validate_inputs inputTypes st opName rest
              else .error (.contractViolation opName kv.1)
          | .tupleIn, .tuple _ => validate_inputs inputTypes st opName rest
          | _, _ => .error (.contractViolation opName kv.1)

/-- Embeds `check_and_detach`: reject a new node whose type is not a
compatible subtype of the existing node's type unless `no_check_var_types`
is set; then detach the operation from the old node's consumer registry. -/
def check_and_detach (st : Store) (newId oldId : Nat) (opId : Nat)
    (no_check_var_types : Bool) : Except MILErr Store :=
  let vNew := storeGetD st newId
  let vOld := storeGetD st oldId
  if ¬ is_compatible_type vNew.sym_type vOld.sym_type ∧ ¬ no_check_var_types then
    .error (.incompatibleRebind vNew.name vOld.name)
  else
    .ok (removeChildOp st oldId opId)

/-- The element-wise detach walk over a tuple slot's paired old/new ids
(`for v_old, v_new in zip(existing_input_var, var)`). -/
def detachTupleLoop (opId : Nat) (nc : Bool) :
    List (Nat × Nat) → Store → Except MILErr Store
  | [], st => .ok st
  | p :: rest, st =>
      match check_and_detach st p.2 p.1 opId nc with
      | .error e => .error e
      | .ok st' => detachTupleLoop opId nc rest st'

/-- One slot update of the `_validate_and_set_inputs` loop: detach from the
existing binding when there is one (element-wise for tuple slots, pairing
old and new positionally as `zip` does), attach the operation to each newly
bound node, then set the slot.  The single-old/tuple-new mismatch cases are
unreachable once validation has run and contribute no detach. -/
def setOneInput (opId : Nat) (no_check : Bool)
    (acc : Store × List (String × Option InRef)) (kv : String × InRef) :
    Except MILErr (Store × List (String × Option InRef)) :=
  let detached : Except MILErr Store :=
    match lookupSlot acc.2 kv.1, kv.2 with
    | some (.single oldId), .single newId =>
        check_and_detach acc.1 newId oldId opId no_check
    | some (.tuple oldIds), .tuple newIds =>
        detachTupleLoop opId no_check (oldIds.zip newIds) acc.1
    | _, _ => .ok acc.1
  match detached with
  | .error e => .error e
  | .ok st1 =>
      let st2 :=
        match kv.2 with
        | .single newId => addChildOp st1 newId opId
        | .tuple newIds => newIds.foldl (fun s i => addChildOp s i opId) st1
      .ok (st2, acc.2.map fun p => if p.1 == kv.1 then (p.1, some kv.2) else p)

/-- The per-binding loop of `_validate_and_set_inputs`. -/
def setInputsLoop (opId : Nat) (nc : Bool) :
    List (String × InRef) → Store × List (String × Option InRef) →
    Except MILErr (Store × List (String × Option InRef))
  | [], acc => .ok acc
  | kv :: rest, acc =>
      match setOneInput opId nc acc kv with
      | .error e => .error e
      | .ok acc' => setInputsLoop opId nc rest acc'

/-- Embeds `Operation._validate_and_set_inputs`: unknown names are rejected
first, then the contract validation runs over all new bindings, then each
slot is detached, attached and updated in turn. -/
def _validate_and_set_inputs (k : OpKind) (op : OpState) (st : Store)
    (kvs : List (String × InRef)) (no_check_var_types : Bool) :
    Except MILErr (OpState × Store) :=
  match kvs.find? (fun kv => (k.inputTypes.find? (fun p => p.1 == kv.1)).isNone) with
  | some kv => .error (.unknownInput kv.1 k.opType)
  | none =>
      match validate_inputs k.inputTypes st op.name kvs with
      | .error e => .error e
      | .ok _ =>
          match setInputsLoop op.opId no_check_var_types kvs (st, op.inputVars) with
          | .error e => .error e
          | .ok res => .ok ({ op with inputVars := res.2 }, res.1)

/-- Embeds `Operation._ensure_required_inputs`: walk the declared inputs in
order and fail on the first non-optional slot that is unbound, naming the
operation and the offending slot. -/
def _ensure_required_inputs (k : OpKind) (op : OpState) : Except MILErr Unit :=
  match k.inputTypes.find? (fun p =>
      !p.2.optional && (lookupSlot op.inputVars p.1).isNone) with
  | some p => .error (.missingRequiredInput op.name p.1)
  | none => .ok ()

def nonAttributes : List String :=
  ["name", "symbolic_datatype", "datatype", "symbolic_value", "value",
   "version", "before_op", "no_check_var_types", "enclosing_block", "scopes"]

/-- Embeds `Operation._check_expected_inputs`: every supplied keyword must
be a recognized system parameter or a declared input (the system
parameters themselves are modelled as separate arguments of `opInit`, so
only their names matter here). -/
def _check_expected_inputs (k : OpKind)
    (kwargs : List (String × Option InRef)) : Except MILErr Unit :=
  match kwargs.find? (fun kv =>
      !nonAttributes.contains kv.1 &&
      (k.inputTypes.find? (fun p => p.1 == kv.1)).isNone) with
  | some kv => .error (.unknownInput kv.1 k.opType)
  | none => .ok ()

/-- One step of the domain-population loop of `Operation.__init__`: a
tensor input whose explicit domain is empty resolves its domain id
against the kind's `type_domains`, failing when the id is not defined
there. -/
def resolveOneSpec (typeDomains : List (String × List Nat))
    (p : String × ISpec) : Except MILErr (String × ISpec) :=
  match p.2.kind with
  | .tensor dom domId =>
      if dom.isEmpty then
        match typeDomains.find? (fun d => d.1 == domId) with
        | some d => .ok (p.1, ⟨p.2.optional, .tensor d.2 domId⟩)
        | none => .error (.unresolvedDomain domId)
      else .ok p
  | .tupleIn => .ok p

/-- Embeds the domain-population loop of `Operation.__init__` over the
whole contract. -/
def resolveDomains (typeDomains : List (String × List Nat)) :
    List (String × ISpec) → Except MILErr (List (String × ISpec))
  | [] => .ok []
  | p :: rest =>
      match resolveOneSpec typeDomains p with
      | .error e => .error e
      | .ok q =>
          match resolveDomains typeDomains rest with
          | .error e => .error e
          | .ok qs => .ok (q :: qs)

/-- The effective initial bindings of a construction call: the supplied
keyword arguments that name a declared input and are not `None`
(`input_kv = {k: v for k, v in kwargs.items() if k in self._input_types
and v is not None}`). -/
def inputKvOf (specs : List (String × ISpec))
    (kwargs : List (String × Option InRef)) : List (String × InRef) :=
  (kwargs.filterMap fun kv => kv.2.map fun r => (kv.1, r)).filter
    fun kv => (specs.find? (fun p => p.1 == kv.1)).isSome

/-- Embeds `Operation.__init__` (the input-handling part): initialize every
slot unbound, reject unexpected keywords, resolve type domains, bind the
supplied non-null inputs, and verify required-input completeness. -/
def opInit (k : OpKind) (opName : String) (opId : Nat)
    (kwargs : List (String × Option InRef)) (st : Store) :
    Except MILErr (OpState × Store) :=
  let op0 : OpState := ⟨opName, opId, k.inputTypes.map (fun p => (p.1, none)), none⟩
  match _check_expected_inputs k kwargs with
  | .error e => .error e
  | .ok _ =>
      match resolveDomains k.typeDomains k.inputTypes with
      | .error e => .error e
      | .ok specs =>
          let kR := { k with inputTypes := specs }
          match _validate_and_set_inputs kR op0 st (inputKvOf specs kwargs) false with
          | .error e => .error e
          | .ok res =>
              match _ensure_required_inputs kR res.1 with
              | .error e => .error e
              | .ok _ => .ok res

/-- Embeds the output-name selection in `type_value_inference`: the kind's
`output_names` when implemented; otherwise positional indices for multiple
outputs, or the single empty name (the output is then named as the op). -/
def pickOutputNames (k : OpKind) (output_types : List MILType) : List String :=
  match k.outNames with
  | some ns => ns
  | none =>
      if output_types.length > 1 then
        (List.range output_types.length).map toString
      else [""]

/-- Modelled from the spec: `ListVar.elem_shape` — the element type's shape
when the list's element type is a tensor, unknown otherwise. -/
def elemShapeOf : MILType → Option (List SEntry)
  | .list (.tensor _ s) _ _ => some s
  | _ => none

/-- A list type whose element shape is known and of rank 5 or more — the
exact condition the first-inference rank check rejects (for a tensor type
`elemShapeOf` is `none`, so this is `false`, as the source checks only
`ListVar` outputs). -/
def badListType (t : MILType) : Bool :=
  match elemShapeOf t with
  | some s => decide (s.length ≥ 5)
  | none => false

/-- One freshly created output Value Node: named from the op, carrying the
inferred type and value.  List-typed symbolic values are kept only for
genuine `mil_list` payloads, which this model does not carry (stored as
`none`); the `ComplexVar` real/imag payload is likewise not modelled. -/
def outputNode (opName : String) (n : String) (t : MILType) (v : Option SArr) :
    VarNode :=
  let name := if n ≠ "" then opName ++ "_" ++ n else opName
  match t with
  | .list _ _ _ => ⟨name, t, none, []⟩
  | _ => ⟨name, t, v, []⟩

/-- Embeds the output-creation arm of `type_value_inference` (first
inference): one Value Node per (name, type, value) triple, with list
outputs checked against the rank-4 ceiling (`UnsupportedRank`) as they
are built.  On the rank error the model commits none of the partially
built outputs (the source leaves a partially appended `_output_vars`
behind the propagating exception; no claim probes that broken state). -/
def createOutputs (opName opType : String) :
    List (String × MILType × Option SArr) → Store → Nat →
    Except MILErr (List Nat × Store × Nat)
  | [], st, nid => .ok ([], st, nid)
  | (n, t, v) :: rest, st, nid =>
      if badListType t then
        .error (.unsupportedRank opName opType ((elemShapeOf t).getD []).length)
      else
        match createOutputs opName opType rest
            (st ++ [(nid, outputNode opName n t v)]) (nid + 1) with
        | .error e => .error e
        | .ok (ids, st', nid') => .ok (nid :: ids, st', nid')

/-- Embeds one iteration of the re-inference comparison loop of
`type_value_inference`: the type check against the existing output node
(overwrite replaces the declared type, otherwise incompatibility is
`TypeDrift`), the overwrite of the value when requested, then the value
check: with both values present and the numpy elementwise comparison
reporting some mismatch, overwrite replaces the value and otherwise
`ValueDrift` is raised exactly when the arrays are not
symbolic-compatible.  (`_set_nonreplaceable_vars_upstream` touches only
replaceability markers and is not modelled.)  The straight-line body is
split here into its two phases, `checkTypePhase` and `checkValuePhase`,
combined by `checkOneOutput`. -/
def checkTypePhase (opName : String) (overwrite : Bool) (st : Store)
    (outId : Nat) (sym_type : MILType) : Except MILErr Store :=
  let out0 := storeGetD st outId
  if overwrite then
    .ok (storeSet st outId { out0 with sym_type := sym_type })
  else if ¬ is_compatible_type sym_type out0.sym_type then
    .error (.typeDrift out0.name opName)
  else .ok st

def checkValuePhase (opName : String) (overwrite : Bool) (st1 : Store)
    (outId : Nat) (sym_val : Option SArr) : Except MILErr Store :=
  let st2 :=
    if overwrite then
      let o := storeGetD st1 outId
      storeSet st1 outId { o with sym_val := sym_val }
    else st1
  let o2 := storeGetD st2 outId
  match sym_val, o2.sym_val with
  | some nv, some ov =>
      if npAnyNe nv ov then
        if overwrite then
          .ok (storeSet st2 outId { o2 with sym_val := some nv })
        else if ¬ _is_compatible_symbolic_array nv ov then
          .error (.valueDrift o2.name opName)
        else .ok st2
      else .ok st2
  | _, _ => .ok st2

def checkOneOutput (opName : String) (overwrite : Bool) (st : Store)
    (outId : Nat) (sym_type : MILType) (sym_val : Option SArr) :
    Except MILErr Store :=
  match checkTypePhase opName overwrite st outId sym_type with
  | .error e => .error e
  | .ok st1 => checkValuePhase opName overwrite st1 outId sym_val

/-- The full re-inference comparison loop: walk the zipped
(type, value) results positionally against the existing output ids. -/
def checkOutputs (opName : String) (overwrite : Bool) (outIds : List Nat) :
    List (MILType × Option SArr) → Nat → Store → Except MILErr Store
  | [], _, st => .ok st
  | tv :: rest, i, st =>
      match outIds.get? i with
      | none => .error .indexErr
      | some outId =>
          match checkOneOutput opName overwrite st outId tv.1 tv.2 with
          | .error e => .error e
          | .ok st' => checkOutputs opName overwrite outIds rest (i + 1) st'

/-- Embeds `Operation.type_value_inference`: run the kind's type inference
over the resolved bound inputs, compute `_auto_val` through the gate, pick
output names, then either create the output Value Nodes (first inference)
or check the new results against the existing outputs. -/
def type_value_inference (k : OpKind) (op : OpState) (st : Store)
    (nextId : Nat) (overwrite_output : Bool) :
    Except MILErr (OpState × Store × Nat) :=
  let res := resolveInputs st op
  let output_types := k.typeInf res
  let output_vals := _auto_val k res output_types
  let output_names := pickOutputNames k output_types
  match op.outputVars with
  | none =>
      let triples := (output_names.zip (output_types.zip output_vals)).map
        fun p => (p.1, p.2.1, p.2.2)
      match createOutputs op.name k.opType triples st nextId with
      | .error e => .error e
      | .ok (ids, st', nid') => .ok ({ op with outputVars := some ids }, st', nid')
  | some ids =>
      match checkOutputs op.name overwrite_output ids
          (output_types.zip output_vals) 0 st with
      | .error e => .error e
      | .ok st' => .ok (op, st', nextId)

/-- Embeds `Operation.set_inputs`: bind the new inputs, re-run inference
only when requested and type checking is not skipped, and re-verify
required-input completeness in every case. -/
def set_inputs (k : OpKind) (op : OpState) (st : Store) (nextId : Nat)
    (no_check_var_types : Bool) (ti : Bool)
    (kvs : List (String × InRef)) : Except MILErr (OpState × Store × Nat) :=
  match _validate_and_set_inputs k op st kvs no_check_var_types with
  | .error e => .error e
  | .ok (op1, st1) =>
      match (if ti ∧ ¬ no_check_var_types then
          type_value_inference k op1 st1 nextId false
        else .ok (op1, st1, nextId)) with
      | .error e => .error e
      | .ok (op2, st2, nid2) =>
          match _ensure_required_inputs k op2 with
          | .error e => .error e
          | .ok _ => .ok (op2, st2, nid2)

/-! ### Classification-gate characterization -/

def varValueBit (v : VarNode) : Bool :=
  !anySymbolicOpt v.sym_val && v.val.isSome

def varSymbolBit (v : VarNode) : Bool :=
  anySymbolicOpt v.sym_val

def varNoneBit (v : VarNode) : Bool :=
  !anySymbolicOpt v.sym_val && v.val.isNone

/-- The inputs one contract entry contributes to the classification gate:
none when optional or unbound, the single node, or the tuple's nodes. -/
def expandOne (res : Resolved) (p : String × ISpec) : List VarNode :=
  if p.2.optional then []
  else
    match p.2.kind, lookupResolved res p.1 with
    | .tupleIn, some (.tuple vs) => vs
    | .tupleIn, _ => []
    | _, some (.single v) => [v]
    | _, _ => []

/-- The inputs the classification gate actually inspects: the non-optional
slots in declaration order, tuple slots expanded element-wise. -/
def expandedRequired (inputTypes : List (String × ISpec)) (res : Resolved) :
    List VarNode :=
  inputTypes.flatMap (expandOne res)

theorem processVar_eq (v : VarNode) (acc : Bool × Bool × Bool) :
    processVar v acc =
      (acc.1 || varValueBit v, acc.2.1 || varSymbolBit v, acc.2.2 || varNoneBit v) := by
  unfold processVar varValueBit varSymbolBit varNoneBit
  by_cases h1 : anySymbolicOpt v.sym_val = true
  · simp [h1]
  · simp only [Bool.not_eq_true] at h1
    by_cases h2 : v.val = none
    · simp [h1, h2]
    · have h3 : v.val.isNone = false := by
        rw [Bool.eq_false_iff]
        intro hcon
        exact h2 (Option.isNone_iff_eq_none.mp hcon)
      have h4 : v.val.isSome = true := Option.isSome_iff_ne_none.mpr h2
      simp [h1, h2, h3, h4]

theorem foldl_processVar (vs : List VarNode) (acc : Bool × Bool × Bool) :
    vs.foldl (fun a v => processVar v a) acc =
      (acc.1 || vs.any varValueBit, acc.2.1 || vs.any varSymbolBit,
        acc.2.2 || vs.any varNoneBit) := by
  induction vs generalizing acc with
  | nil => simp
  | cons v vs ih =>
      simp only [List.foldl_cons]
      rw [processVar_eq, ih]
      simp [List.any_cons, Bool.or_assoc]

theorem classifyStep_eq (res : Resolved) (p : String × ISpec)
    (acc : Bool × Bool × Bool) :
    classifyStep res acc p =
      (acc.1 || (expandOne res p).any varValueBit,
       acc.2.1 || (expandOne res p).any varSymbolBit,
       acc.2.2 || (expandOne res p).any varNoneBit) := by
  unfold classifyStep expandOne
  by_cases hopt : p.2.optional = true
  · simp [hopt]
  · rw [if_neg hopt, if_neg hopt]
    cases hk : p.2.kind with
    | tensor dom did =>
        cases hl : lookupResolved res p.1 with
        | none => simp
        | some b =>
            cases b with
            | single v => simp [processVar_eq]
            | tuple vs => simp
    | tupleIn =>
        cases hl : lookupResolved res p.1 with
        | none => simp
        | some b =>
            cases b with
            | single v => simp
            | tuple vs =>
                simp only []
                rw [foldl_processVar]

theorem classifyInputs_go (res : Resolved) (its : List (String × ISpec))
    (acc : Bool × Bool × Bool) :
    its.foldl (classifyStep res) acc =
    (acc.1 || (expandedRequired its res).any varValueBit,
     acc.2.1 || (expandedRequired its res).any varSymbolBit,
     acc.2.2 || (expandedRequired its res).any varNoneBit) := by
  induction its generalizing acc with
  | nil => simp [expandedRequired]
  | cons p ps ih =>
      simp only [List.foldl_cons]
      rw [classifyStep_eq, ih]
      simp [expandedRequired, List.flatMap_cons, List.any_append, Bool.or_assoc]

/-- Claim C5 (amended): the accumulated classification bits are exactly:
`has_materialized` iff some non-optional input (tuples expanded
element-wise) carries a concrete value; `has_symbolic` iff some such
input's VALUE contains an unresolved symbol (the declared type is never
examined); `has_absent` iff some such input has neither.  Optional inputs
never enter the expansion, so they contribute nothing. -/
theorem classification_bits_characterized (inputTypes : List (String × ISpec))
    (res : Resolved) :
    classifyInputs inputTypes res =
      ((expandedRequired inputTypes res).any varValueBit,
       (expandedRequired inputTypes res).any varSymbolBit,
       (expandedRequired inputTypes res).any varNoneBit) := by
  unfold classifyInputs
  rw [classifyInputs_go]
  simp

/-- The operation kind used by the concrete classification scenarios: one
required tensor input. -/
def cKindC5 : List (String × ISpec) := [("x", ⟨false, .tensor [0] "T"⟩)]

/-- A Value Node whose declared type carries an unresolved symbolic
dimension but which has no symbolic value at all. -/
def cVarC5 : VarNode := ⟨"v", .tensor 0 [.sym 0], none, []⟩

def cResC5 : Resolved := [("x", some (.single cVarC5))]

/-- Claim C5 counterexample: a required input whose declared type contains
an unresolved symbol but which carries no value is classified Absent
(`has_absent`), not Symbolic: the gate inspects only the value, never the
type, so the claim's "Symbolic if its type or value contains any
unresolved symbol" fails on the type side. -/
theorem classification_ignores_type_symbols :
    cVarC5.sym_type = MILType.tensor 0 [SEntry.sym 0] ∧
    classifyInputs cKindC5 cResC5 = (false, false, true) := by
  constructor
  · rfl
  · decide

/-! ### Gate intolerance and value degradation -/

/-- Claim C1: when some accumulated classification bit of the non-optional
inputs lies outside the kind's declared tolerance mask, the decorated
value inference signals unavailability (`NotImplementedError`), and
`_auto_val` consumes the signal internally, yielding an unknown (`none`)
value for every output; no error reaches the caller. -/
theorem gate_intolerance_yields_unknown (k : OpKind) (res : Resolved)
    (output_types : List MILType) (f : Resolved → List (Option SArr))
    (hImpl : k.valueInf = some f)
    (hBit : ((classifyInputs k.inputTypes res).1 = true ∧ k.allow &&& VALUE = 0) ∨
            ((classifyInputs k.inputTypes res).2.1 = true ∧ k.allow &&& SYMBOL = 0) ∨
            ((classifyInputs k.inputTypes res).2.2 = true ∧ k.allow &&& NONE = 0)) :
    valueInferenceGated k res = .error .notImplemented ∧
    _auto_val k res output_types = output_types.map fun _ => none := by
  have hg : valueInferenceGated k res = .error .notImplemented := by
    simp only [valueInferenceGated, hImpl]
    split_ifs with h1 h2 h3
    · rfl
    · rfl
    · rfl
    · exfalso
      rcases hBit with h | h | h
      · exact h1 h
      · exact h2 h
      · exact h3 h
  refine ⟨hg, ?_⟩
  simp only [_auto_val, hg]

def wKindC1 : OpKind :=
  { opType := "add"
    inputTypes := [("x", ⟨false, .tensor [0] "T"⟩)]
    typeDomains := [("T", [0])]
    typeInf := fun _ => [.tensor 0 []]
    valueInf := some fun _ => [some ⟨[], []⟩]
    allow := VALUE
    outNames := none }

def wResC1 : Resolved :=
  [("x", some (.single ⟨"x0", .tensor 0 [.intVal 2], some ⟨[2], [.sym 0, .intVal 1]⟩, []⟩))]

theorem gate_intolerance_yields_unknown_witness :
    valueInferenceGated wKindC1 wResC1 = .error .notImplemented ∧
    _auto_val wKindC1 wResC1 [.tensor 0 []] = [none] := by
  have h := gate_intolerance_yields_unknown wKindC1 wResC1 [.tensor 0 []] _ rfl
    (Or.inr (Or.inl ⟨by decide, by decide⟩))
  exact ⟨h.1, h.2.trans rfl⟩

/-- Claim C6: when value inference does run and returns its candidates, a
single unknown (`none`) candidate makes every output's value unknown; the
known candidates are never attached to a subset of the outputs. -/
theorem unknown_candidate_all_none (k : OpKind) (res : Resolved)
    (output_types : List MILType) (vals : List (Option SArr))
    (hok : valueInferenceGated k res = .ok vals)
    (hnone : vals.any (fun v => v = none) = true) :
    _auto_val k res output_types = output_types.map fun _ => none := by
  simp only [_auto_val, hok]
  simp [hnone]

def wKindC6 : OpKind :=
  { opType := "two_out"
    inputTypes := []
    typeDomains := []
    typeInf := fun _ => [.tensor 0 [], .tensor 0 [.intVal 3]]
    valueInf := some fun _ => [some ⟨[], [.intVal 3]⟩, none]
    allow := ALL
    outNames := none }

theorem unknown_candidate_all_none_witness :
    _auto_val wKindC6 [] [.tensor 0 [], .tensor 0 [.intVal 3]] = [none, none] := by
  have h := unknown_candidate_all_none wKindC6 []
    [.tensor 0 [], .tensor 0 [.intVal 3]] [some ⟨[], [.intVal 3]⟩, none] rfl (by decide)
  exact h.trans rfl

/-! ### Re-inference: value drift and idempotence -/

instance instDecEqExcept {ε α : Type} [DecidableEq ε] [DecidableEq α] :
    DecidableEq (Except ε α)
  | .ok x, .ok y =>
      if h : x = y then isTrue (congrArg Except.ok h)
      else isFalse (fun hc => h (Except.ok.inj hc))
  | .error x, .error y =>
      if h : x = y then isTrue (congrArg Except.error h)
      else isFalse (fun hc => h (Except.error.inj hc))
  | .ok _, .error _ => isFalse (fun hc => Except.noConfusion hc)
  | .error _, .ok _ => isFalse (fun hc => Except.noConfusion hc)

theorem npAnyNe_self (a : SArr) : npAnyNe a a = false := by
  unfold npAnyNe
  rw [if_pos rfl, Bool.eq_false_iff]
  intro hcon
  rw [List.any_eq_true] at hcon
  rcases hcon with ⟨ab, hab, hne⟩
  have heq := mem_zip_self_eq a.data ab hab
  simp [heq] at hne

theorem npAnyNe_of_incompatible (a b : SArr) (hs : a.shape = b.shape)
    (h : _is_compatible_symbolic_array a b = false) : npAnyNe a b = true := by
  unfold _is_compatible_symbolic_array at h
  rw [if_neg (by simp [hs])] at h
  unfold npAnyNe
  rw [if_pos hs, List.any_eq_true]
  rw [Bool.eq_false_iff] at h
  have h2 : ¬ ∀ tv ∈ a.data.zip b.data,
      (if ¬ tv.1.is_symbolic = true ∧ ¬ tv.2.is_symbolic = true then tv.1 = tv.2
       else True) := by
    intro hall
    exact h (by
      rw [List.all_eq_true]
      intro tv htv
      have htv2 := hall tv htv
      split_ifs at htv2 with hcond
      · rw [if_pos hcond]
        simp [htv2]
      · rw [if_neg hcond])
  push_neg at h2
  rcases h2 with ⟨tv, htv, hbad⟩
  refine ⟨tv, htv, ?_⟩
  by_cases hcond : ¬ tv.1.is_symbolic = true ∧ ¬ tv.2.is_symbolic = true
  · rw [if_pos hcond] at hbad
    simpa using hbad
  · rw [if_neg hcond] at hbad
    exact absurd trivial hbad

theorem storeGetD_of_get {st : Store} {id : Nat} {out : VarNode}
    (h : storeGet st id = some out) : storeGetD st id = out := by
  simp [storeGetD, h]

theorem checkTypePhase_ok (opName : String) (st : Store) (outId : Nat)
    (t : MILType) (out : VarNode)
    (hget : storeGet st outId = some out)
    (hty : is_compatible_type t out.sym_type = true) :
    checkTypePhase opName false st outId t = .ok st := by
  unfold checkTypePhase
  rw [storeGetD_of_get hget]
  simp [hty]

/-- Claim C3 (amended): on a re-inference with `overwrite_existing` unset,
both values present and OF EQUAL SHAPES, a ValueDrift error is raised if
and only if the two arrays are not symbolic-compatible, and a
symbolic-compatible pair is accepted with the heap untouched.  (The
counterexample shows that for shape-differing arrays the elementwise
broadcast comparison can report no mismatch, in which case the
compatibility test is never consulted and no error is raised even though
the arrays are not symbolic-compatible.) -/
theorem value_drift_iff_incompatible (opName : String) (st : Store)
    (outId : Nat) (t : MILType) (nv ov : SArr) (out : VarNode)
    (hget : storeGet st outId = some out)
    (hty : is_compatible_type t out.sym_type = true)
    (hov : out.sym_val = some ov)
    (hshape : nv.shape = ov.shape) :
    ((checkOneOutput opName false st outId t (some nv) =
        .error (.valueDrift out.name opName)) ↔
      _is_compatible_symbolic_array nv ov = false) ∧
    (_is_compatible_symbolic_array nv ov = true →
      checkOneOutput opName false st outId t (some nv) = .ok st) := by
  have hred : checkOneOutput opName false st outId t (some nv) =
      checkValuePhase opName false st outId (some nv) := by
    unfold checkOneOutput
    rw [checkTypePhase_ok opName st outId t out hget hty]
  have hval : checkValuePhase opName false st outId (some nv) =
      (if npAnyNe nv ov = true then
        (if _is_compatible_symbolic_array nv ov = false then
          Except.error (.valueDrift out.name opName)
        else Except.ok st)
      else Except.ok st) := by
    unfold checkValuePhase
    by_cases h1 : npAnyNe nv ov = true
    · by_cases h2 : _is_compatible_symbolic_array nv ov = false
      · simp [storeGetD_of_get hget, hov, h1, h2]
      · simp only [Bool.not_eq_false] at h2
        simp [storeGetD_of_get hget, hov, h1, h2]
    · simp only [Bool.not_eq_true] at h1
      simp [storeGetD_of_get hget, hov, h1]
  rw [hred, hval]
  constructor
  · constructor
    · intro herr
      by_cases h2 : _is_compatible_symbolic_array nv ov = false
      · exact h2
      · exfalso
        simp only [Bool.not_eq_false] at h2
        by_cases h1 : npAnyNe nv ov = true
        · rw [if_pos h1, if_neg (by simp [h2])] at herr
          exact Except.noConfusion herr
        · rw [if_neg h1] at herr
          exact Except.noConfusion herr
    · intro h2
      rw [if_pos (npAnyNe_of_incompatible nv ov hshape h2), if_pos h2]
  · intro h2
    have h2' : ¬ _is_compatible_symbolic_array nv ov = false := by simp [h2]
    by_cases h1 : npAnyNe nv ov = true
    · rw [if_pos h1, if_neg h2']
    · rw [if_neg h1]

def wOutC3 : VarNode :=
  ⟨"o", .tensor 0 [.sym 0], some ⟨[2], [.intVal 4, .sym 1]⟩, []⟩

theorem value_drift_iff_incompatible_witness :
    checkOneOutput "op" false [(0, wOutC3)] 0 (MILType.tensor 0 [.sym 0])
        (some ⟨[2], [.intVal 5, .intVal 7]⟩) =
      .error (.valueDrift "o" "op") ∧
    _is_compatible_symbolic_array ⟨[2], [.intVal 5, .intVal 7]⟩
        ⟨[2], [.intVal 4, .sym 1]⟩ = false := by
  have h := value_drift_iff_incompatible "op" [(0, wOutC3)] 0
    (MILType.tensor 0 [.sym 0]) ⟨[2], [.intVal 5, .intVal 7]⟩
    ⟨[2], [.intVal 4, .sym 1]⟩ wOutC3 rfl (by decide) rfl rfl
  exact ⟨h.1.mpr (by decide), by decide⟩

def cOutC3 : VarNode :=
  ⟨"o", .tensor 0 [.sym 0], some ⟨[2], [.intVal 5, .intVal 5]⟩, []⟩

/-- Claim C3 counterexample: the existing output value is `[5, 5]` of
shape (2,), the newly inferred value is `[5]` of shape (1,).  The arrays
are not symbolic-compatible (their shapes differ), yet the re-inference
step raises no ValueDrift and leaves the heap untouched: numpy's
broadcast elementwise comparison finds no mismatching position, so the
compatibility test is never consulted.  The claim's "if and only if"
fails in this direction. -/
theorem value_drift_shape_mismatch_escapes :
    checkOneOutput "op" false [(0, cOutC3)] 0 (MILType.tensor 0 [.sym 0])
        (some ⟨[1], [.intVal 5]⟩) = .ok [(0, cOutC3)] ∧
    _is_compatible_symbolic_array ⟨[1], [.intVal 5]⟩
        ⟨[2], [.intVal 5, .intVal 5]⟩ = false := by
  decide

theorem checkOneOutput_self (opName : String) (st : Store) (outId : Nat)
    (out : VarNode) (hget : storeGet st outId = some out)
    (t : MILType) (v : Option SArr)
    (hty : out.sym_type = t) (hval : out.sym_val = v) :
    checkOneOutput opName false st outId t v = .ok st := by
  unfold checkOneOutput
  rw [checkTypePhase_ok opName st outId t out hget
    (by rw [← hty]; exact is_compatible_type_refl _)]
  unfold checkValuePhase
  cases v with
  | none => simp [storeGetD_of_get hget, hval]
  | some nv => simp [storeGetD_of_get hget, hval, npAnyNe_self]

theorem checkOutputs_noop (opName : String) (outIds : List Nat) (st : Store) :
    ∀ (tvl : List (MILType × Option SArr)) (i : Nat),
    (∀ j, ∀ hj : j < tvl.length, ∃ id out, outIds.get? (i + j) = some id ∧
        storeGet st id = some out ∧ out.sym_type = (tvl.get ⟨j, hj⟩).1 ∧
        out.sym_val = (tvl.get ⟨j, hj⟩).2) →
    checkOutputs opName false outIds tvl i st = .ok st := by
  intro tvl
  induction tvl with
  | nil => intro i h; rfl
  | cons tv rest ih =>
      intro i h
      obtain ⟨id, out, hid, hget, hty, hval⟩ := h 0 (by simp)
      rw [Nat.add_zero] at hid
      unfold checkOutputs
      rw [hid]
      simp only [checkOneOutput_self opName st id out hget tv.1 tv.2 hty hval]
      exact ih (i + 1) (fun j hj => by
        obtain ⟨id', out', h1, h2, h3, h4⟩ := h (j + 1) (by simpa using Nat.succ_lt_succ hj)
        refine ⟨id', out', ?_, h2, h3, h4⟩
        rw [show i + 1 + j = i + (j + 1) by omega]
        exact h1)

/-- The (type, value) pairs one run of inference computes for an operation
against a given heap: the kind's inferred output types zipped with the
gated `_auto_val` results. -/
def inferredPairs (k : OpKind) (op : OpState) (st : Store) :
    List (MILType × Option SArr) :=
  (k.typeInf (resolveInputs st op)).zip
    (_auto_val k (resolveInputs st op) (k.typeInf (resolveInputs st op)))

/-- Claim C2: re-running inference (no overwrite) on an operation whose
outputs already hold exactly what inference computes from the current
bound inputs — i.e. the outputs were materialized by a run of inference
on unchanged inputs — succeeds with no TypeDrift or ValueDrift, and
leaves the operation, the heap (so every output's type and value), and
the allocator unchanged. -/
theorem reinference_idempotent (k : OpKind) (op : OpState) (st : Store)
    (nid : Nat) (ids : List Nat)
    (hout : op.outputVars = some ids)
    (hmatch : ∀ j, ∀ hj : j < (inferredPairs k op st).length,
      ∃ id out, ids.get? j = some id ∧ storeGet st id = some out ∧
        out.sym_type = ((inferredPairs k op st).get ⟨j, hj⟩).1 ∧
        out.sym_val = ((inferredPairs k op st).get ⟨j, hj⟩).2) :
    type_value_inference k op st nid false = .ok (op, st, nid) := by
  unfold type_value_inference
  rw [hout]
  have hnoop := checkOutputs_noop op.name ids st
    ((k.typeInf (resolveInputs st op)).zip
      (_auto_val k (resolveInputs st op) (k.typeInf (resolveInputs st op)))) 0
    (fun j hj => by
      rw [Nat.zero_add]
      exact hmatch j hj)
  simp only [hnoop]

def wKindC2 : OpKind :=
  { opType := "add"
    inputTypes := [("x", ⟨false, .tensor [0] "T"⟩)]
    typeDomains := [("T", [0])]
    typeInf := fun _ => [.tensor 0 [.intVal 2]]
    valueInf := some fun _ => [some ⟨[2], [.intVal 4, .intVal 6]⟩]
    allow := ALL
    outNames := none }

def wOpC2 : OpState :=
  ⟨"a", 1, [("x", some (.single 0))], some [5]⟩

def wStC2 : Store :=
  [(0, ⟨"x0", .tensor 0 [.intVal 2], some ⟨[2], [.intVal 1, .intVal 2]⟩, [1]⟩),
   (5, ⟨"a", .tensor 0 [.intVal 2], some ⟨[2], [.intVal 4, .intVal 6]⟩, []⟩)]

theorem reinference_idempotent_witness :
    type_value_inference wKindC2 wOpC2 wStC2 9 false = .ok (wOpC2, wStC2, 9) := by
  refine reinference_idempotent wKindC2 wOpC2 wStC2 9 [5] rfl ?_
  intro j hj
  have hl : (inferredPairs wKindC2 wOpC2 wStC2).length = 1 := by decide
  rw [hl] at hj
  have hj0 : j = 0 := by omega
  subst hj0
  exact ⟨5, ⟨"a", .tensor 0 [.intVal 2], some ⟨[2], [.intVal 4, .intVal 6]⟩, []⟩,
    rfl, rfl, rfl, rfl⟩

/-! ### First inference: the list-output rank ceiling -/

theorem storeGet_append (st st2 : Store) (id : Nat) :
    storeGet (st ++ st2) id =
      match storeGet st id with
      | some v => some v
      | none => storeGet st2 id := by
  unfold storeGet
  rw [List.find?_append]
  cases st.find? (fun p => p.1 = id) <;> simp

theorem storeGet_eq_none_of_fresh (st : Store) (nid : Nat)
    (hfresh : ∀ p ∈ st, p.1 < nid) : storeGet st nid = none := by
  unfold storeGet
  have hnone : st.find? (fun p => p.1 = nid) = none := by
    rw [List.find?_eq_none]
    intro p hp
    simp only [decide_eq_true_eq]
    exact Nat.ne_of_lt (hfresh p hp)
  rw [hnone]

theorem createOutputs_extends (opName opType : String)
    (triples : List (String × MILType × Option SArr)) :
    ∀ (st : Store) (nid : Nat) (ids : List Nat) (st' : Store) (nid' : Nat),
    createOutputs opName opType triples st nid = .ok (ids, st', nid') →
    ∃ tail, st' = st ++ tail := by
  induction triples with
  | nil =>
      intro st nid ids st' nid' h
      unfold createOutputs at h
      cases h
      exact ⟨[], by simp⟩
  | cons x rest ih =>
      intro st nid ids st' nid' h
      obtain ⟨n, t, v⟩ := x
      unfold createOutputs at h
      by_cases hb : badListType t = true
      · rw [if_pos hb] at h
        exact Except.noConfusion h
      · rw [if_neg hb] at h
        rcases hrec : createOutputs opName opType rest
            (st ++ [(nid, outputNode opName n t v)]) (nid + 1) with e | tri
        · rw [hrec] at h
          exact Except.noConfusion h
        · rw [hrec] at h
          obtain ⟨ids0, st0, nid0⟩ := tri
          cases h
          obtain ⟨tail, htail⟩ := ih _ _ _ _ _ hrec
          exact ⟨(nid, outputNode opName n t v) :: tail, by
            rw [htail, List.append_assoc]
            rfl⟩

theorem createOutputs_char (opName opType : String)
    (triples : List (String × MILType × Option SArr)) :
    ∀ (st : Store) (nid : Nat),
    ((∃ r, createOutputs opName opType triples st nid =
        .error (.unsupportedRank opName opType r)) ↔
      triples.any (fun x => badListType x.2.1) = true) ∧
    (∀ ids st' nid',
      createOutputs opName opType triples st nid = .ok (ids, st', nid') →
      (∀ p ∈ st, p.1 < nid) →
      ∀ id ∈ ids, badListType (storeGetD st' id).sym_type = false) := by
  induction triples with
  | nil =>
      intro st nid
      refine ⟨⟨?_, ?_⟩, ?_⟩
      · rintro ⟨r, hr⟩
        unfold createOutputs at hr
        exact Except.noConfusion hr
      · intro hany
        simp at hany
      · intro ids st' nid' h _ id hid
        unfold createOutputs at h
        cases h
        cases hid
  | cons x rest ih =>
      intro st nid
      obtain ⟨n, t, v⟩ := x
      by_cases hb : badListType t = true
      · refine ⟨⟨?_, ?_⟩, ?_⟩
        · intro _
          simp [List.any_cons, hb]
        · intro _
          refine ⟨((elemShapeOf t).getD []).length, ?_⟩
          unfold createOutputs
          rw [if_pos hb]
        · intro ids st' nid' h
          unfold createOutputs at h
          rw [if_pos hb] at h
          exact absurd h (fun hc => Except.noConfusion hc)
      · refine ⟨⟨?_, ?_⟩, ?_⟩
        · rintro ⟨r, hr⟩
          unfold createOutputs at hr
          rw [if_neg hb] at hr
          rcases hrec : createOutputs opName opType rest
              (st ++ [(nid, outputNode opName n t v)]) (nid + 1) with e | tri
          · rw [hrec] at hr
            cases hr
            have hany := ((ih _ _).1).mp ⟨r, hrec⟩
            simp [List.any_cons, hany]
          · rw [hrec] at hr
            obtain ⟨ids0, st0, nid0⟩ := tri
            exact Except.noConfusion hr
        · intro hany
          simp only [List.any_cons, Bool.or_eq_true] at hany
          rcases hany with hbt | hrest
          · exact absurd hbt hb
          · obtain ⟨r, hr⟩ := ((ih _ _).1).mpr hrest
            refine ⟨r, ?_⟩
            unfold createOutputs
            rw [if_neg hb, hr]
        · intro ids st' nid' h hfresh id hid
          unfold createOutputs at h
          rw [if_neg hb] at h
          rcases hrec : createOutputs opName opType rest
              (st ++ [(nid, outputNode opName n t v)]) (nid + 1) with e | tri
          · rw [hrec] at h
            exact Except.noConfusion h
          · rw [hrec] at h
            obtain ⟨ids0, st0, nid0⟩ := tri
            cases h
            have hfresh' : ∀ p ∈ st ++ [(nid, outputNode opName n t v)],
                p.1 < nid + 1 := by
              intro p hp
              rcases List.mem_append.mp hp with h1 | h2
              · exact Nat.lt_succ_of_lt (hfresh p h1)
              · rw [List.mem_singleton.mp h2]
                exact Nat.lt_succ_self nid
            rcases List.mem_cons.mp hid with hid0 | hid'
            · subst hid0
              obtain ⟨tail, htail⟩ := createOutputs_extends opName opType rest _ _ _ _ _ hrec
              have h1 : storeGet (st ++ [(id, outputNode opName n t v)]) id =
                  some (outputNode opName n t v) := by
                rw [storeGet_append, storeGet_eq_none_of_fresh st id hfresh]
                simp [storeGet]
              have hget : storeGet st' id = some (outputNode opName n t v) := by
                rw [htail, storeGet_append, h1]
              rw [storeGetD_of_get hget]
              have hsym : (outputNode opName n t v).sym_type = t := by
                unfold outputNode
                cases t <;> rfl
              rw [hsym]
              exact Bool.eq_false_iff.mpr hb
            · exact (ih _ _).2 ids0 st' nid' hrec hfresh' id hid'

theorem any_zip_mid {α β γ : Type} (f : β → Bool) :
    ∀ (ns : List α) (ts : List β) (vs : List γ),
    ts.length ≤ ns.length → ts.length ≤ vs.length →
    (ns.zip (ts.zip vs)).any (fun p => f p.2.1) = ts.any f
  | _, [], _, _, _ => by simp
  | [], t :: ts, vs, h1, _ => by simp at h1
  | n :: ns, t :: ts, [], _, h2 => by simp at h2
  | n :: ns, t :: ts, v :: vs, h1, h2 => by
      simp only [List.zip_cons_cons, List.any_cons]
      rw [any_zip_mid f ns ts vs (by simpa using h1) (by simpa using h2)]

/-- Claim C7: on a first inference (no outputs exist yet), with the kind
producing matching numbers of names, types and values, an UnsupportedRank
error is raised exactly when some inferred output type is a list whose
known element rank exceeds 4 (rank 5 or more); and whenever the inference
succeeds, no created output Value Node carries such a type. -/
theorem first_inference_rank_limit (k : OpKind) (op : OpState) (st : Store)
    (nid : Nat)
    (hout : op.outputVars = none)
    (hlen1 : (k.typeInf (resolveInputs st op)).length ≤
      (pickOutputNames k (k.typeInf (resolveInputs st op))).length)
    (hlen2 : (k.typeInf (resolveInputs st op)).length ≤
      (_auto_val k (resolveInputs st op) (k.typeInf (resolveInputs st op))).length)
    (hfresh : ∀ p ∈ st, p.1 < nid) :
    ((∃ r, type_value_inference k op st nid false =
        .error (.unsupportedRank op.name k.opType r)) ↔
      (k.typeInf (resolveInputs st op)).any badListType = true) ∧
    (∀ op' st' nid',
      type_value_inference k op st nid false = .ok (op', st', nid') →
      ∀ ids, op'.outputVars = some ids →
        ∀ id ∈ ids, badListType (storeGetD st' id).sym_type = false) := by
  have hproj : (((pickOutputNames k (k.typeInf (resolveInputs st op))).zip
        ((k.typeInf (resolveInputs st op)).zip
          (_auto_val k (resolveInputs st op) (k.typeInf (resolveInputs st op))))).map
      (fun p => (p.1, p.2.1, p.2.2))).any (fun x => badListType x.2.1) =
      (k.typeInf (resolveInputs st op)).any badListType := by
    rw [List.any_map]
    have := any_zip_mid badListType (pickOutputNames k (k.typeInf (resolveInputs st op)))
      (k.typeInf (resolveInputs st op))
      (_auto_val k (resolveInputs st op) (k.typeInf (resolveInputs st op))) hlen1 hlen2
    rw [← this]
    rfl
  have hchar := createOutputs_char op.name k.opType
    (((pickOutputNames k (k.typeInf (resolveInputs st op))).zip
        ((k.typeInf (resolveInputs st op)).zip
          (_auto_val k (resolveInputs st op) (k.typeInf (resolveInputs st op))))).map
      (fun p => (p.1, p.2.1, p.2.2))) st nid
  have hred : type_value_inference k op st nid false =
      (match createOutputs op.name k.opType
          (((pickOutputNames k (k.typeInf (resolveInputs st op))).zip
              ((k.typeInf (resolveInputs st op)).zip
                (_auto_val k (resolveInputs st op) (k.typeInf (resolveInputs st op))))).map
            (fun p => (p.1, p.2.1, p.2.2))) st nid with
        | .error e => .error e
        | .ok (ids, st', nid') =>
            .ok ({ op with outputVars := some ids }, st', nid')) := by
    unfold type_value_inference
    rw [hout]
  constructor
  · rw [← hproj]
    rw [← hchar.1]
    constructor
    · rintro ⟨r, hr⟩
      rw [hred] at hr
      rcases hco : createOutputs op.name k.opType
          (((pickOutputNames k (k.typeInf (resolveInputs st op))).zip
              ((k.typeInf (resolveInputs st op)).zip
                (_auto_val k (resolveInputs st op) (k.typeInf (resolveInputs st op))))).map
            (fun p => (p.1, p.2.1, p.2.2))) st nid with e | tri
      · rw [hco] at hr
        simp only at hr
        cases hr
        exact ⟨r, hco⟩
      · rw [hco] at hr
        obtain ⟨ids0, st0, nid0⟩ := tri
        exact Except.noConfusion hr
    · rintro ⟨r, hr⟩
      refine ⟨r, ?_⟩
      rw [hred, hr]
  · intro op' st' nid' h ids hids id hid
    rw [hred] at h
    rcases hco : createOutputs op.name k.opType
        (((pickOutputNames k (k.typeInf (resolveInputs st op))).zip
            ((k.typeInf (resolveInputs st op)).zip
              (_auto_val k (resolveInputs st op) (k.typeInf (resolveInputs st op))))).map
          (fun p => (p.1, p.2.1, p.2.2))) st nid with e | tri
    · rw [hco] at h
      exact Except.noConfusion h
    · rw [hco] at h
      obtain ⟨ids0, st0, nid0⟩ := tri
      cases h
      simp only [OpState.mk.injEq] at hids ⊢
      have hids0 : ids = ids0 := by
        have := hids
        simp only at this
        exact (Option.some.inj this).symm
      subst hids0
      exact hchar.2 ids st' nid' hco hfresh id hid

def wKindC7 : OpKind :=
  { opType := "make_list"
    inputTypes := []
    typeDomains := []
    typeInf := fun _ =>
      [.list (.tensor 0 [.intVal 1, .intVal 1, .intVal 1, .intVal 1, .intVal 1])
        (some 1) false]
    valueInf := none
    allow := ALL
    outNames := none }

def wOpC7 : OpState := ⟨"l", 2, [], none⟩

theorem first_inference_rank_limit_witness :
    ∃ r, type_value_inference wKindC7 wOpC7 [] 0 false =
      .error (.unsupportedRank "l" "make_list" r) := by
  have h := first_inference_rank_limit wKindC7 wOpC7 [] 0 rfl (by decide) (by decide)
    (by intro p hp; cases hp)
  exact h.1.mpr (by decide)

/-! ### Rebinding: consumer-edge bookkeeping -/

theorem storeGet_cons (x : Nat × VarNode) (l : Store) (id : Nat) :
    storeGet (x :: l) id = if x.1 = id then some x.2 else storeGet l id := by
  unfold storeGet
  rw [List.find?_cons]
  by_cases h : x.1 = id
  · simp [h]
  · simp [h]

theorem storeGet_storeSet (st : Store) (id id' : Nat) (v : VarNode) :
    storeGet (storeSet st id v) id' =
      if id' = id then (storeGet st id).map (fun _ => v)
      else storeGet st id' := by
  induction st with
  | nil => by_cases h : id' = id <;> simp [storeGet, storeSet, h]
  | cons p rest ih =>
      show storeGet ((if p.1 = id then (id, v) else p) :: storeSet rest id v) id' = _
      rw [storeGet_cons]
      by_cases hpid : p.1 = id
      · by_cases h' : id' = id
        · simp [hpid, h', storeGet_cons]
        · simp [hpid, h', Ne.symm h', ih, storeGet_cons]
      · by_cases h' : id' = id
        · subst h'
          simp [hpid, ih, storeGet_cons]
        · by_cases hp' : p.1 = id'
          · simp [hpid, h', hp', storeGet_cons]
          · simp [hpid, h', hp', ih, storeGet_cons]

theorem storeGet_removeChildOp (st : Store) (id opId : Nat) (id' : Nat) :
    storeGet (removeChildOp st id opId) id' =
      if id' = id then
        (storeGet st id).map fun v => { v with child_ops := v.child_ops.erase opId }
      else storeGet st id' := by
  unfold removeChildOp
  rw [storeGet_storeSet]
  by_cases h : id' = id
  · rw [if_pos h, if_pos h]
    cases hg : storeGet st id
    · rfl
    · simp [storeGetD, hg]
  · rw [if_neg h, if_neg h]

theorem storeGet_addChildOp (st : Store) (id opId : Nat) (id' : Nat) :
    storeGet (addChildOp st id opId) id' =
      if id' = id then
        (storeGet st id).map fun v => { v with child_ops := v.child_ops ++ [opId] }
      else storeGet st id' := by
  unfold addChildOp
  rw [storeGet_storeSet]
  by_cases h : id' = id
  · rw [if_pos h, if_pos h]
    cases hg : storeGet st id
    · rfl
    · simp [storeGetD, hg]
  · rw [if_neg h, if_neg h]

/-- The shape of a one-slot single-node rebind, once the unknown-input
check and the contract validation have passed and the slot already holds
a single node: type-check-and-detach against the old node, then attach
the operation to the new node and update the slot. -/
theorem validate_set_singleton (k : OpKind) (op : OpState) (st : Store)
    (name : String) (oldId newId : Nat) (nc : Bool)
    (hspec : (k.inputTypes.find? (fun p => p.1 == name)).isSome = true)
    (hval : validate_inputs k.inputTypes st op.name [(name, .single newId)] = .ok ())
    (hold : lookupSlot op.inputVars name = some (.single oldId)) :
    _validate_and_set_inputs k op st [(name, .single newId)] nc =
      (match check_and_detach st newId oldId op.opId nc with
        | .error e => .error e
        | .ok st1 =>
            .ok ({ op with inputVars := op.inputVars.map fun p =>
                if p.1 == name then (p.1, some (.single newId)) else p },
              addChildOp st1 newId op.opId)) := by
  have hfind : ([(name, InRef.single newId)].find?
      (fun kv => (k.inputTypes.find? (fun p => p.1 == kv.1)).isNone)) = none := by
    rw [List.find?_eq_none]
    intro kv hkv
    have hkv' := List.mem_singleton.mp hkv
    subst hkv'
    intro hcon
    exact Option.isSome_iff_ne_none.mp hspec (Option.isNone_iff_eq_none.mp hcon)
  have hone : setOneInput op.opId nc (st, op.inputVars) (name, .single newId) =
      (match check_and_detach st newId oldId op.opId nc with
        | .error e => .error e
        | .ok st1 =>
            .ok (addChildOp st1 newId op.opId,
              op.inputVars.map fun p =>
                if p.1 == name then (p.1, some (InRef.single newId)) else p)) := by
    unfold setOneInput
    simp only [hold]
  have hloop : setInputsLoop op.opId nc [(name, .single newId)] (st, op.inputVars) =
      (match check_and_detach st newId oldId op.opId nc with
        | .error e => .error e
        | .ok st1 =>
            .ok (addChildOp st1 newId op.opId,
              op.inputVars.map fun p =>
                if p.1 == name then (p.1, some (InRef.single newId)) else p)) := by
    unfold setInputsLoop
    rw [hone]
    cases check_and_detach st newId oldId op.opId nc with
    | error e => rfl
    | ok st1 =>
        unfold setInputsLoop
        rfl
  unfold _validate_and_set_inputs
  rw [hfind]
  simp only [hval]
  rw [hloop]
  cases check_and_detach st newId oldId op.opId nc with
  | error e => rfl
  | ok st1 => rfl

/-- Claim C4 (amended): rebinding an already-bound slot to a Value Node
whose type is not compatible with the old node's type fails with an error
unless the skip-type-check override is set; when the rebinding succeeds
AND the new node is distinct from the old AND the operation occurs at
most once in the old node's consumer registry (the rebound slot was its
only use of that node), the old node's registry no longer contains the
operation, while the new node's registry does contain it.  (The
counterexample shows the original consumer-set claim fails when the slot
is rebound to the same node, and when the operation still consumes the
old node through another slot.) -/
theorem rebind_detaches_and_attaches (k : OpKind) (op : OpState) (st : Store)
    (name : String) (oldId newId : Nat) (nc : Bool) (vOld vNew : VarNode)
    (hspec : (k.inputTypes.find? (fun p => p.1 == name)).isSome = true)
    (hval : validate_inputs k.inputTypes st op.name [(name, .single newId)] = .ok ())
    (hold : lookupSlot op.inputVars name = some (.single oldId))
    (hgOld : storeGet st oldId = some vOld)
    (hgNew : storeGet st newId = some vNew) :
    (is_compatible_type vNew.sym_type vOld.sym_type = false → nc = false →
      _validate_and_set_inputs k op st [(name, .single newId)] nc =
        .error (.incompatibleRebind vNew.name vOld.name)) ∧
    (∀ op' st',
      _validate_and_set_inputs k op st [(name, .single newId)] nc = .ok (op', st') →
      oldId ≠ newId → vOld.child_ops.count op.opId ≤ 1 →
      op.opId ∉ (storeGetD st' oldId).child_ops ∧
      op.opId ∈ (storeGetD st' newId).child_ops) := by
  have hred := validate_set_singleton k op st name oldId newId nc hspec hval hold
  constructor
  · intro hinc hnc
    rw [hred]
    have hcd : check_and_detach st newId oldId op.opId nc =
        .error (.incompatibleRebind vNew.name vOld.name) := by
      unfold check_and_detach
      rw [storeGetD_of_get hgNew, storeGetD_of_get hgOld]
      rw [if_pos ⟨by simp [hinc], by simp [hnc]⟩]
    rw [hcd]
  · intro op' st' hok hne hcount
    rw [hred] at hok
    rcases hcd : check_and_detach st newId oldId op.opId nc with e | st1
    · rw [hcd] at hok
      exact Except.noConfusion hok
    · rw [hcd] at hok
      have hst1 : st1 = removeChildOp st oldId op.opId := by
        simp only [check_and_detach] at hcd
        split_ifs at hcd
        all_goals
          first
          | exact Except.noConfusion hcd
          | exact (Except.ok.inj hcd).symm
      have hst' : st' = addChildOp st1 newId op.opId := by
        cases hok
        rfl
      subst hst1
      subst hst'
      constructor
      · have hgetOld : storeGet
            (addChildOp (removeChildOp st oldId op.opId) newId op.opId) oldId =
            some { vOld with child_ops := vOld.child_ops.erase op.opId } := by
          rw [storeGet_addChildOp, if_neg hne, storeGet_removeChildOp, if_pos rfl, hgOld]
          rfl
        rw [storeGetD_of_get hgetOld]
        intro hmem
        have h1 : (vOld.child_ops.erase op.opId).count op.opId =
            vOld.child_ops.count op.opId - 1 := List.count_erase_self _ _
        have h2 : (vOld.child_ops.erase op.opId).count op.opId = 0 := by omega
        exact (List.count_eq_zero.mp h2) hmem
      · have hgR : storeGet (removeChildOp st oldId op.opId) newId = some vNew := by
          rw [storeGet_removeChildOp, if_neg (Ne.symm hne), hgNew]
        have hgetNew : storeGet
            (addChildOp (removeChildOp st oldId op.opId) newId op.opId) newId =
            some { vNew with child_ops := vNew.child_ops ++ [op.opId] } := by
          rw [storeGet_addChildOp, if_pos rfl, hgR]
          rfl
        rw [storeGetD_of_get hgetNew]
        exact List.mem_append_right _ (List.mem_singleton_self _)

def cK4 : OpKind :=
  { opType := "relu"
    inputTypes := [("x", ⟨false, .tensor [0] "T"⟩)]
    typeDomains := [("T", [0])]
    typeInf := fun _ => []
    valueInf := none
    allow := ALL
    outNames := none }

def cOp4 : OpState := ⟨"o", 7, [("x", some (.single 0))], none⟩

def cSt4 : Store := [(0, ⟨"v", .tensor 0 [], none, [7]⟩)]

def cK4b : OpKind :=
  { opType := "add"
    inputTypes := [("x", ⟨false, .tensor [0] "T"⟩), ("y", ⟨false, .tensor [0] "T"⟩)]
    typeDomains := [("T", [0])]
    typeInf := fun _ => []
    valueInf := none
    allow := ALL
    outNames := none }

def cOp4b : OpState := ⟨"o2", 8, [("x", some (.single 0)), ("y", some (.single 0))], none⟩

def cSt4b : Store :=
  [(0, ⟨"v", .tensor 0 [], none, [8, 8]⟩), (1, ⟨"w", .tensor 0 [], none, []⟩)]

def rebindStore (r : Except MILErr (OpState × Store)) : Store :=
  match r with
  | .ok p => p.2
  | .error _ => []

def isOkVS (r : Except MILErr (OpState × Store)) : Bool :=
  match r with
  | .ok _ => true
  | .error _ => false

/-- Claim C4 counterexample: (i) rebinding slot x from node 0 to the SAME
node 0 succeeds (the types are identical), yet afterwards the old node's
consumer registry still contains the operation — it is detached once and
immediately reattached; (ii) with slots x and y both bound to node 0,
rebinding x to the distinct node 1 succeeds, yet node 0's registry still
contains the operation (the occurrence contributed by slot y remains).
Both violate the claim's "the old node's consumer set no longer contains
this operation". -/
theorem rebind_consumer_claim_fails :
    (isOkVS (_validate_and_set_inputs cK4 cOp4 cSt4 [("x", .single 0)] false) = true ∧
      7 ∈ (storeGetD
        (rebindStore (_validate_and_set_inputs cK4 cOp4 cSt4 [("x", .single 0)] false))
        0).child_ops) ∧
    (isOkVS (_validate_and_set_inputs cK4b cOp4b cSt4b [("x", .single 1)] false) = true ∧
      8 ∈ (storeGetD
        (rebindStore (_validate_and_set_inputs cK4b cOp4b cSt4b [("x", .single 1)] false))
        0).child_ops) := by
  decide

def wSt4 : Store :=
  [(0, ⟨"v", .tensor 0 [], none, [7]⟩), (1, ⟨"w", .tensor 0 [], none, []⟩)]

theorem rebind_detaches_and_attaches_witness :
    ∃ op' st',
      _validate_and_set_inputs cK4 cOp4 wSt4 [("x", .single 1)] false = .ok (op', st') ∧
      7 ∉ (storeGetD st' 0).child_ops ∧ 7 ∈ (storeGetD st' 1).child_ops := by
  rcases hres : _validate_and_set_inputs cK4 cOp4 wSt4 [("x", .single 1)] false
    with e | ⟨op', st'⟩
  · exfalso
    have hok : isOkVS (_validate_and_set_inputs cK4 cOp4 wSt4 [("x", .single 1)] false)
        = true := by decide
    rw [hres] at hok
    exact Bool.noConfusion hok
  · have h := (rebind_detaches_and_attaches cK4 cOp4 wSt4 "x" 0 1 false
      ⟨"v", .tensor 0 [], none, [7]⟩ ⟨"w", .tensor 0 [], none, []⟩
      (by decide) (by decide) (by decide) rfl rfl).2 op' st' hres
      (by decide) (by decide)
    exact ⟨op', st', rfl, h.1, h.2⟩

/-! ### Construction: required inputs and None bindings -/

theorem find?_key_preserving {X Y : Type} (l : List (String × X))
    (g : String × X → String × Y) (hg : ∀ p, (g p).1 = p.1) (s : String) :
    (l.map g).find? (fun q => q.1 == s) = (l.find? (fun q => q.1 == s)).map g := by
  rw [List.find?_map]
  have hpred : ((fun q : String × Y => q.1 == s) ∘ g) =
      (fun q : String × X => q.1 == s) := by
    funext p
    simp [Function.comp, hg]
  rw [hpred]

/-- The final binding of one slot after the binding loop: the slot's new
binding when one of the new key-value pairs names it, its old content
otherwise. -/
def bindOneSlot (kvs : List (String × InRef)) (p : String × Option InRef) :
    String × Option InRef :=
  match kvs.find? (fun kv => kv.1 == p.1) with
  | some kv => (p.1, some kv.2)
  | none => p

/-- The slot map after the binding loop: every slot named by one of the
new bindings holds that binding (keys being unique), other slots are
untouched. -/
def bindSlots (kvs : List (String × InRef))
    (slots : List (String × Option InRef)) : List (String × Option InRef) :=
  slots.map (bindOneSlot kvs)

theorem bindOneSlot_fst (kvs : List (String × InRef))
    (p : String × Option InRef) : (bindOneSlot kvs p).1 = p.1 := by
  unfold bindOneSlot
  cases kvs.find? (fun kv => kv.1 == p.1) <;> rfl

theorem bindSlots_nil (slots : List (String × Option InRef)) :
    bindSlots [] slots = slots := by
  unfold bindSlots bindOneSlot
  simp

theorem lookupSlot_bindSlots (kvs : List (String × InRef))
    (slots : List (String × Option InRef)) (s : String) :
    lookupSlot (bindSlots kvs slots) s =
      match slots.find? (fun q => q.1 == s) with
      | none => none
      | some p =>
          match kvs.find? (fun kv => kv.1 == p.1) with
          | some kv => some kv.2
          | none => p.2 := by
  unfold lookupSlot bindSlots
  rw [find?_key_preserving _ _ (bindOneSlot_fst kvs) s]
  cases hf : slots.find? (fun q => q.1 == s) with
  | none => rfl
  | some p0 =>
      show (match some (bindOneSlot kvs p0) with
        | some p => p.2
        | none => none) =
        (match kvs.find? (fun kv => kv.1 == p0.1) with
          | some kv => some kv.2
          | none => p0.2)
      unfold bindOneSlot
      cases kvs.find? (fun kv => kv.1 == p0.1) <;> rfl

theorem bindSlots_cons (kv : String × InRef) (rest : List (String × InRef))
    (slots : List (String × Option InRef))
    (hnd : kv.1 ∉ rest.map Prod.fst) :
    bindSlots (kv :: rest) slots =
      bindSlots rest (slots.map fun p =>
        if p.1 == kv.1 then (p.1, some kv.2) else p) := by
  unfold bindSlots
  rw [List.map_map]
  apply List.map_congr_left
  intro p _
  simp only [Function.comp]
  by_cases hpk : p.1 = kv.1
  · rw [if_pos (by simpa using hpk)]
    have hfind : rest.find? (fun kv' => kv'.1 == p.1) = none := by
      rw [List.find?_eq_none]
      intro kv' hkv' hcon
      apply hnd
      have h1 : kv'.1 = p.1 := by simpa using hcon
      rw [← hpk, ← h1]
      exact List.mem_map_of_mem Prod.fst hkv'
    unfold bindOneSlot
    rw [List.find?_cons_of_pos _ (by simpa using hpk.symm)]
    show ((p.1, some kv.2) : String × Option InRef) =
      (match rest.find? (fun kv' => kv'.1 == p.1) with
        | some kv' => ((p.1, some kv'.2) : String × Option InRef)
        | none => (p.1, some kv.2))
    rw [hfind]
  · rw [if_neg (by simpa using hpk)]
    unfold bindOneSlot
    rw [List.find?_cons_of_neg _
      (by simp only [beq_iff_eq]; exact fun hc => hpk hc.symm)]

/-- The binding loop on a fresh (all-unbound) set of slots: it cannot fail
— there is no existing binding to detach from, hence no type check — and
it binds exactly the supplied keys. -/
theorem setInputsLoop_fresh (opId : Nat) (nc : Bool) :
    ∀ (kvs : List (String × InRef)) (st : Store)
      (slots : List (String × Option InRef)),
    (∀ kv ∈ kvs, ∃ p, slots.find? (fun q => q.1 == kv.1) = some p ∧ p.2 = none) →
    ((kvs.map Prod.fst).Nodup) →
    ∃ st', setInputsLoop opId nc kvs (st, slots) = .ok (st', bindSlots kvs slots) := by
  intro kvs
  induction kvs with
  | nil =>
      intro st slots _ _
      exact ⟨st, by rw [bindSlots_nil]; rfl⟩
  | cons kv rest ih =>
      intro st slots hsl hnd
      obtain ⟨p, hfind, hpnone⟩ := hsl kv (List.mem_cons_self _ _)
      have hlook : lookupSlot slots kv.1 = none := by
        unfold lookupSlot
        rw [hfind]
        exact hpnone
      have hone : setOneInput opId nc (st, slots) kv =
          .ok ((match kv.2 with
              | .single newId => addChildOp st newId opId
              | .tuple newIds => newIds.foldl (fun s i => addChildOp s i opId) st),
            slots.map fun q => if q.1 == kv.1 then (q.1, some kv.2) else q) := by
        unfold setOneInput
        simp only [hlook]
      obtain ⟨hnd1, hnd2⟩ := List.nodup_cons.mp hnd
      have hkey : ∀ q : String × Option InRef,
          ((fun q : String × Option InRef =>
            if q.1 == kv.1 then (q.1, some kv.2) else q) q).1 = q.1 := by
        intro q
        by_cases h : (q.1 == kv.1) = true <;> simp [h]
      have hsl' : ∀ kv' ∈ rest,
          ∃ p, (slots.map fun q => if q.1 == kv.1 then (q.1, some kv.2) else q).find?
            (fun q => q.1 == kv'.1) = some p ∧ p.2 = none := by
        intro kv' hkv'
        obtain ⟨p', hf', hp'⟩ := hsl kv' (List.mem_cons_of_mem _ hkv')
        have hp'1 : p'.1 = kv'.1 := by
          have h := List.find?_some hf'
          simpa using h
        have hne : ¬ (p'.1 == kv.1) = true := by
          simp only [beq_iff_eq]
          intro hc
          apply hnd1
          rw [← hc, hp'1]
          exact List.mem_map_of_mem Prod.fst hkv'
        refine ⟨p', ?_, hp'⟩
        rw [find?_key_preserving _ _ hkey kv'.1, hf']
        show some (if (p'.1 == kv.1) = true then (p'.1, some kv.2) else p') = some p'
        rw [if_neg hne]
      obtain ⟨st'', hrec⟩ := ih ((match kv.2 with
          | InRef.single newId => addChildOp st newId opId
          | InRef.tuple newIds => newIds.foldl (fun s i => addChildOp s i opId) st : Store))
        (slots.map fun q => if q.1 == kv.1 then (q.1, some kv.2) else q) hsl' hnd2
      refine ⟨st'', ?_⟩
      show (match setOneInput opId nc (st, slots) kv with
        | Except.error e => Except.error e
        | Except.ok acc' => setInputsLoop opId nc rest acc') =
        Except.ok (st'', bindSlots (kv :: rest) slots)
      rw [hone]
      show setInputsLoop opId nc rest
        ((match kv.2 with
          | InRef.single newId => addChildOp st newId opId
          | InRef.tuple newIds => newIds.foldl (fun s i => addChildOp s i opId) st : Store),
          slots.map fun q => if q.1 == kv.1 then (q.1, some kv.2) else q) =
        Except.ok (st'', bindSlots (kv :: rest) slots)
      rw [hrec, bindSlots_cons kv rest slots hnd1]

theorem resolveOneSpec_fst (td : List (String × List Nat))
    (p q : String × ISpec) (h : resolveOneSpec td p = .ok q) : q.1 = p.1 := by
  unfold resolveOneSpec at h
  cases hk : p.2.kind with
  | tensor dom domId =>
      simp only [hk] at h
      split_ifs at h with hemp
      · cases hf : td.find? (fun d => d.1 == domId) with
        | none =>
            simp only [hf] at h
            exact Except.noConfusion h
        | some d =>
            simp only [hf] at h
            cases h
            rfl
      · cases h
        rfl
  | tupleIn =>
      simp only [hk] at h
      cases h
      rfl

theorem resolveDomains_keys (td : List (String × List Nat)) :
    ∀ (its specs : List (String × ISpec)),
    resolveDomains td its = .ok specs →
    specs.map Prod.fst = its.map Prod.fst := by
  intro its
  induction its with
  | nil =>
      intro specs h
      unfold resolveDomains at h
      cases h
      rfl
  | cons p rest ih =>
      intro specs h
      unfold resolveDomains at h
      rcases hq : resolveOneSpec td p with e | q
      · rw [hq] at h
        exact Except.noConfusion h
      · rw [hq] at h
        rcases hr : resolveDomains td rest with e | qs
        · rw [hr] at h
          exact Except.noConfusion h
        · rw [hr] at h
          cases h
          simp only [List.map_cons]
          rw [resolveOneSpec_fst td p q hq, ih qs hr]

theorem inputKv_known (specs : List (String × ISpec))
    (kwargs : List (String × Option InRef)) :
    (inputKvOf specs kwargs).find?
      (fun kv => (specs.find? (fun p => p.1 == kv.1)).isNone) = none := by
  rw [List.find?_eq_none]
  intro kv hkv hcon
  have hmem := (List.mem_filter.mp hkv).2
  rw [Option.isNone_iff_eq_none] at hcon
  rw [hcon] at hmem
  simp at hmem

theorem inputKv_none_key (specs : List (String × ISpec))
    (kwargs : List (String × Option InRef)) (n : String)
    (honly : ∀ r : InRef, (n, some r) ∉ kwargs) :
    (inputKvOf specs kwargs).find? (fun kv => kv.1 == n) = none := by
  rw [List.find?_eq_none]
  intro kv hkv hcon
  have hk1 : kv.1 = n := by simpa using hcon
  have hkv2 := (List.mem_filter.mp hkv).1
  rw [List.mem_filterMap] at hkv2
  obtain ⟨orig, horig, hmap⟩ := hkv2
  cases ho2 : orig.2 with
  | none =>
      rw [ho2] at hmap
      exact Option.noConfusion hmap
  | some r =>
      rw [ho2] at hmap
      have heq : (orig.1, r) = kv := by simpa using hmap
      apply honly r
      have ho1 : orig.1 = n := by rw [← hk1, ← heq]
      have horig' : orig = (n, some r) := Prod.ext ho1 ho2
      rw [← horig']
      exact horig

theorem slots0_spec (k : OpKind) (specs : List (String × ISpec))
    (hkeys : specs.map Prod.fst = k.inputTypes.map Prod.fst)
    (kwargs : List (String × Option InRef)) :
    ∀ kv ∈ inputKvOf specs kwargs,
      ∃ p, (k.inputTypes.map fun q => (q.1, (none : Option InRef))).find?
        (fun q => q.1 == kv.1) = some p ∧ p.2 = none := by
  intro kv hkv
  have hmem := (List.mem_filter.mp hkv).2
  obtain ⟨q, hq⟩ := Option.isSome_iff_exists.mp hmem
  have hqmem := List.mem_of_find?_eq_some hq
  have hqkey : q.1 = kv.1 := by simpa using List.find?_some hq
  have hkey2 : kv.1 ∈ k.inputTypes.map Prod.fst := by
    rw [← hkeys, ← hqkey]
    exact List.mem_map_of_mem Prod.fst hqmem
  obtain ⟨r, hrmem, hrkey⟩ := List.mem_map.mp hkey2
  have hsome : ((k.inputTypes.map fun q => (q.1, (none : Option InRef))).find?
      (fun q => q.1 == kv.1)).isSome = true := by
    rw [find?_key_preserving k.inputTypes
      (fun q : String × ISpec => (q.1, (none : Option InRef))) (fun _ => rfl) kv.1]
    have : (k.inputTypes.find? (fun q => q.1 == kv.1)).isSome = true := by
      rw [List.find?_isSome]
      exact ⟨r, hrmem, by simpa using hrkey⟩
    cases hf : k.inputTypes.find? (fun q => q.1 == kv.1)
    · rw [hf] at this
      exact absurd this (by simp)
    · rfl
  obtain ⟨p, hp⟩ := Option.isSome_iff_exists.mp hsome
  refine ⟨p, hp, ?_⟩
  have hpm := List.mem_of_find?_eq_some hp
  obtain ⟨r0, _, hr0⟩ := List.mem_map.mp hpm
  rw [← hr0]

theorem validate_set_fresh (k : OpKind) (op0 : OpState) (st : Store)
    (kvs : List (String × InRef)) (st' : Store)
    (hunk : kvs.find?
      (fun kv => (k.inputTypes.find? (fun p => p.1 == kv.1)).isNone) = none)
    (hval : validate_inputs k.inputTypes st op0.name kvs = .ok ())
    (hl : setInputsLoop op0.opId false kvs (st, op0.inputVars) =
      .ok (st', bindSlots kvs op0.inputVars)) :
    _validate_and_set_inputs k op0 st kvs false =
      .ok ({ op0 with inputVars := bindSlots kvs op0.inputVars }, st') := by
  unfold _validate_and_set_inputs
  rw [hunk]
  simp only [hval, hl]

/-- The binding a construction leaves in a declared slot: the effective
binding's node when one names the slot, unbound otherwise. -/
theorem lookupSlot_after_init (k : OpKind) (specs : List (String × ISpec))
    (kwargs : List (String × Option InRef)) (s : String)
    (hs : s ∈ k.inputTypes.map Prod.fst) :
    lookupSlot (bindSlots (inputKvOf specs kwargs)
      (k.inputTypes.map fun p => (p.1, none))) s =
      (match (inputKvOf specs kwargs).find? (fun kv => kv.1 == s) with
        | some kv => some kv.2
        | none => none) := by
  rw [lookupSlot_bindSlots]
  have hsome : ((k.inputTypes.map fun q => (q.1, (none : Option InRef))).find?
      (fun q => q.1 == s)).isSome = true := by
    rw [find?_key_preserving k.inputTypes
      (fun q : String × ISpec => (q.1, (none : Option InRef))) (fun _ => rfl) s]
    obtain ⟨r, hrmem, hrkey⟩ := List.mem_map.mp hs
    have hf : (k.inputTypes.find? (fun q => q.1 == s)).isSome = true := by
      rw [List.find?_isSome]
      exact ⟨r, hrmem, by simpa using hrkey⟩
    cases hff : k.inputTypes.find? (fun q => q.1 == s)
    · rw [hff] at hf
      exact absurd hf (by simp)
    · rfl
  obtain ⟨p, hp⟩ := Option.isSome_iff_exists.mp hsome
  rw [hp]
  have hp1 : p.1 = s := by simpa using List.find?_some hp
  have hp2 : p.2 = none := by
    obtain ⟨r0, _, hr0⟩ := List.mem_map.mp (List.mem_of_find?_eq_some hp)
    rw [← hr0]
  show (match (inputKvOf specs kwargs).find? (fun kv => kv.1 == p.1) with
    | some kv => some kv.2
    | none => p.2) = _
  rw [hp1, hp2]

/-- Construction once its first three phases pass: the result is the
required-input check applied to the operation binding exactly the
effective inputs. -/
theorem opInit_phases (k : OpKind) (opName : String) (opId : Nat)
    (kwargs : List (String × Option InRef)) (st : Store)
    (specs : List (String × ISpec))
    (hchk : _check_expected_inputs k kwargs = .ok ())
    (hdom : resolveDomains k.typeDomains k.inputTypes = .ok specs)
    (hval : validate_inputs specs st opName (inputKvOf specs kwargs) = .ok ())
    (hnd : ((inputKvOf specs kwargs).map Prod.fst).Nodup) :
    ∃ st', opInit k opName opId kwargs st =
      (match _ensure_required_inputs { k with inputTypes := specs }
          ⟨opName, opId,
            bindSlots (inputKvOf specs kwargs)
              (k.inputTypes.map fun p => (p.1, none)), none⟩ with
        | .error e => .error e
        | .ok _ => .ok (⟨opName, opId,
            bindSlots (inputKvOf specs kwargs)
              (k.inputTypes.map fun p => (p.1, none)), none⟩, st')) := by
  have hkeys := resolveDomains_keys k.typeDomains k.inputTypes specs hdom
  have hpre := slots0_spec k specs hkeys kwargs
  obtain ⟨st', hl⟩ := setInputsLoop_fresh opId false (inputKvOf specs kwargs) st
    (k.inputTypes.map fun p => (p.1, none)) hpre hnd
  refine ⟨st', ?_⟩
  unfold opInit
  simp only [hchk, hdom]
  have hvs := validate_set_fresh { k with inputTypes := specs }
    ⟨opName, opId, k.inputTypes.map (fun p => (p.1, none)), none⟩ st
    (inputKvOf specs kwargs) st' (inputKv_known specs kwargs) hval hl
  simp only [hvs]

theorem opInit_missing_required_aux (k : OpKind) (opName : String) (opId : Nat)
    (kwargs : List (String × Option InRef)) (st : Store)
    (specs : List (String × ISpec))
    (hchk : _check_expected_inputs k kwargs = .ok ())
    (hdom : resolveDomains k.typeDomains k.inputTypes = .ok specs)
    (hval : validate_inputs specs st opName (inputKvOf specs kwargs) = .ok ())
    (hnd : ((inputKvOf specs kwargs).map Prod.fst).Nodup)
    (hmiss : ∃ q ∈ specs, q.2.optional = false ∧
      (inputKvOf specs kwargs).find? (fun kv => kv.1 == q.1) = none) :
    ∃ slot, opInit k opName opId kwargs st =
        .error (.missingRequiredInput opName slot) ∧
      ∃ q ∈ specs, q.1 = slot ∧ q.2.optional = false ∧
        (inputKvOf specs kwargs).find? (fun kv => kv.1 == slot) = none := by
  obtain ⟨st', hred⟩ := opInit_phases k opName opId kwargs st specs hchk hdom hval hnd
  have hkeys := resolveDomains_keys k.typeDomains k.inputTypes specs hdom
  have hlook : ∀ q ∈ specs, lookupSlot (bindSlots (inputKvOf specs kwargs)
      (k.inputTypes.map fun p => (p.1, none))) q.1 =
      (match (inputKvOf specs kwargs).find? (fun kv => kv.1 == q.1) with
        | some kv => some kv.2
        | none => none) := by
    intro q hq
    apply lookupSlot_after_init
    rw [← hkeys]
    exact List.mem_map_of_mem Prod.fst hq
  obtain ⟨q0, hq0mem, hq0opt, hq0none⟩ := hmiss
  have hpred0 : (!q0.2.optional && (lookupSlot (bindSlots (inputKvOf specs kwargs)
      (k.inputTypes.map fun p => (p.1, none))) q0.1).isNone) = true := by
    rw [hq0opt, hlook q0 hq0mem, hq0none]
    rfl
  have hsome : (specs.find? (fun p => !p.2.optional &&
      (lookupSlot (bindSlots (inputKvOf specs kwargs)
        (k.inputTypes.map fun p => (p.1, none))) p.1).isNone)).isSome = true := by
    rw [List.find?_isSome]
    exact ⟨q0, hq0mem, hpred0⟩
  obtain ⟨q1, hq1⟩ := Option.isSome_iff_exists.mp hsome
  have hq1mem := List.mem_of_find?_eq_some hq1
  have hq1pred := List.find?_some hq1
  rw [Bool.and_eq_true] at hq1pred
  obtain ⟨hq1opt, hq1isnone⟩ := hq1pred
  have hq1opt' : q1.2.optional = false := by simpa using hq1opt
  have hq1none : (inputKvOf specs kwargs).find? (fun kv => kv.1 == q1.1) = none := by
    have hl := hlook q1 hq1mem
    rw [Option.isNone_iff_eq_none] at hq1isnone
    rw [hl] at hq1isnone
    cases hf : (inputKvOf specs kwargs).find? (fun kv => kv.1 == q1.1)
    · rfl
    · rw [hf] at hq1isnone
      exact Option.noConfusion hq1isnone
  have hens : _ensure_required_inputs { k with inputTypes := specs }
      ⟨opName, opId, bindSlots (inputKvOf specs kwargs)
        (k.inputTypes.map fun p => (p.1, none)), none⟩ =
      .error (.missingRequiredInput opName q1.1) := by
    show (match specs.find? (fun p => !p.2.optional &&
        (lookupSlot (bindSlots (inputKvOf specs kwargs)
          (k.inputTypes.map fun p => (p.1, none))) p.1).isNone) with
      | some p => Except.error (MILErr.missingRequiredInput opName p.1)
      | none => Except.ok ()) =
      Except.error (MILErr.missingRequiredInput opName q1.1)
    rw [hq1]
  refine ⟨q1.1, ?_, q1, hq1mem, rfl, hq1opt', hq1none⟩
  rw [hred, hens]

/-- Claim C8: a construction (the rebinding case is the same completeness
check, claim C10's theorem shows it always runs) whose keyword names pass
the expected-input check, whose type domains resolve, and whose supplied
bindings validate, but which leaves some required slot without an
effective binding, fails with MissingRequiredInput naming the operation
and an offending slot — a required slot with no effective binding. -/
theorem construction_missing_required (k : OpKind) (opName : String) (opId : Nat)
    (kwargs : List (String × Option InRef)) (st : Store)
    (specs : List (String × ISpec))
    (hchk : _check_expected_inputs k kwargs = .ok ())
    (hdom : resolveDomains k.typeDomains k.inputTypes = .ok specs)
    (hval : validate_inputs specs st opName (inputKvOf specs kwargs) = .ok ())
    (hnd : ((inputKvOf specs kwargs).map Prod.fst).Nodup)
    (hmiss : ∃ q ∈ specs, q.2.optional = false ∧
      (inputKvOf specs kwargs).find? (fun kv => kv.1 == q.1) = none) :
    ∃ slot, opInit k opName opId kwargs st =
        .error (.missingRequiredInput opName slot) ∧
      ∃ q ∈ specs, q.1 = slot ∧ q.2.optional = false ∧
        (inputKvOf specs kwargs).find? (fun kv => kv.1 == slot) = none :=
  opInit_missing_required_aux k opName opId kwargs st specs hchk hdom hval hnd hmiss

def wK8 : OpKind :=
  { opType := "relu"
    inputTypes := [("x", ⟨false, .tensor [] "T"⟩)]
    typeDomains := [("T", [0])]
    typeInf := fun _ => []
    valueInf := none
    allow := ALL
    outNames := none }

theorem construction_missing_required_witness :
    opInit wK8 "o" 3 [] [] = .error (.missingRequiredInput "o" "x") := by
  obtain ⟨slot, herr, q, hqmem, hqs, _, _⟩ := construction_missing_required wK8 "o" 3 [] []
    [("x", ⟨false, .tensor [0] "T"⟩)] rfl (by decide) rfl (by decide)
    ⟨("x", ⟨false, .tensor [0] "T"⟩), by simp, rfl, rfl⟩
  have hq := List.mem_singleton.mp hqmem
  rw [hq] at hqs
  rw [← hqs] at herr
  exact herr

theorem filterMap_filter_isSome (kwargs : List (String × Option InRef)) :
    (kwargs.filter fun kv => kv.2.isSome).filterMap
      (fun kv => kv.2.map fun r => (kv.1, r)) =
      kwargs.filterMap (fun kv => kv.2.map fun r => (kv.1, r)) := by
  induction kwargs with
  | nil => rfl
  | cons kv rest ih =>
      cases h2 : kv.2 with
      | none => simp [List.filter_cons, List.filterMap_cons, h2, ih]
      | some r => simp [List.filter_cons, List.filterMap_cons, h2, ih]

/-- Claim C9: a supplied binding whose value is None is silently ignored
rather than bound: (a) construction behaves exactly as if the None
entries were absent; (b) when a required slot is supplied only as None,
construction fails with the missing-required-input error; (c) when every
required slot has a real binding, construction succeeds and an optional
slot supplied as None stays unbound. -/
theorem none_bindings_ignored (k : OpKind) (opName : String) (opId : Nat)
    (kwargs : List (String × Option InRef)) (st : Store)
    (specs : List (String × ISpec))
    (hchk : _check_expected_inputs k kwargs = .ok ())
    (hdom : resolveDomains k.typeDomains k.inputTypes = .ok specs)
    (hval : validate_inputs specs st opName (inputKvOf specs kwargs) = .ok ())
    (hnd : ((inputKvOf specs kwargs).map Prod.fst).Nodup) :
    (opInit k opName opId kwargs st =
      opInit k opName opId (kwargs.filter fun kv => kv.2.isSome) st) ∧
    (∀ n, (∀ r : InRef, (n, some r) ∉ kwargs) →
      (∃ sp ∈ specs, sp.1 = n ∧ sp.2.optional = false) →
      ∃ slot, opInit k opName opId kwargs st =
        .error (.missingRequiredInput opName slot)) ∧
    (∀ n, (∀ r : InRef, (n, some r) ∉ kwargs) →
      (∀ q ∈ specs, q.2.optional = false →
        ((inputKvOf specs kwargs).find? (fun kv => kv.1 == q.1)).isSome = true) →
      ∃ op1 st', opInit k opName opId kwargs st = .ok (op1, st') ∧
        lookupSlot op1.inputVars n = none) := by
  have hkeys := resolveDomains_keys k.typeDomains k.inputTypes specs hdom
  refine ⟨?_, ?_, ?_⟩
  · -- (a) filtering out the None entries changes nothing
    have hchk' : _check_expected_inputs k (kwargs.filter fun kv => kv.2.isSome) =
        .ok () := by
      unfold _check_expected_inputs at hchk ⊢
      cases hf : kwargs.find? (fun kv => !nonAttributes.contains kv.1 &&
          (k.inputTypes.find? (fun p => p.1 == kv.1)).isNone) with
      | some kv =>
          rw [hf] at hchk
          exact Except.noConfusion hchk
      | none =>
          have : (kwargs.filter fun kv => kv.2.isSome).find?
              (fun kv => !nonAttributes.contains kv.1 &&
                (k.inputTypes.find? (fun p => p.1 == kv.1)).isNone) = none := by
            rw [List.find?_eq_none] at hf ⊢
            intro kv hkv
            exact hf kv (List.mem_of_mem_filter hkv)
          rw [this]
    have hkv : inputKvOf specs (kwargs.filter fun kv => kv.2.isSome) =
        inputKvOf specs kwargs := by
      unfold inputKvOf
      rw [filterMap_filter_isSome]
    unfold opInit
    simp only [hchk, hchk', hdom, hkv]
  · -- (b) required slot supplied only as None
    intro n honly hreq
    obtain ⟨sp, hspmem, hspn, hspopt⟩ := hreq
    obtain ⟨slot, herr, _⟩ := opInit_missing_required_aux k opName opId kwargs st specs
      hchk hdom hval hnd
      ⟨sp, hspmem, hspopt, by rw [hspn]; exact inputKv_none_key specs kwargs n honly⟩
    exact ⟨slot, herr⟩
  · -- (c) all required slots bound: success, None-supplied slot unbound
    intro n honly hall
    obtain ⟨st', hred⟩ := opInit_phases k opName opId kwargs st specs hchk hdom hval hnd
    have hens : _ensure_required_inputs { k with inputTypes := specs }
        ⟨opName, opId, bindSlots (inputKvOf specs kwargs)
          (k.inputTypes.map fun p => (p.1, none)), none⟩ = .ok () := by
      show (match specs.find? (fun p => !p.2.optional &&
          (lookupSlot (bindSlots (inputKvOf specs kwargs)
            (k.inputTypes.map fun p => (p.1, none))) p.1).isNone) with
        | some p => Except.error (MILErr.missingRequiredInput opName p.1)
        | none => Except.ok ()) = Except.ok ()
      have hnone : specs.find? (fun p => !p.2.optional &&
          (lookupSlot (bindSlots (inputKvOf specs kwargs)
            (k.inputTypes.map fun p => (p.1, none))) p.1).isNone) = none := by
        rw [List.find?_eq_none]
        intro q hq hcon
        rw [Bool.and_eq_true] at hcon
        obtain ⟨hopt, hisnone⟩ := hcon
        have hopt' : q.2.optional = false := by simpa using hopt
        have hsome := hall q hq hopt'
        obtain ⟨kv0, hkv0⟩ := Option.isSome_iff_exists.mp hsome
        have hlq : lookupSlot (bindSlots (inputKvOf specs kwargs)
            (k.inputTypes.map fun p => (p.1, none))) q.1 = some kv0.2 := by
          rw [lookupSlot_after_init k specs kwargs q.1
            (by rw [← hkeys]; exact List.mem_map_of_mem Prod.fst hq), hkv0]
        rw [hlq] at hisnone
        exact Option.noConfusion (Option.isNone_iff_eq_none.mp hisnone)
      rw [hnone]
    refine ⟨⟨opName, opId, bindSlots (inputKvOf specs kwargs)
      (k.inputTypes.map fun p => (p.1, none)), none⟩, st', ?_, ?_⟩
    · rw [hred, hens]
    · show lookupSlot (bindSlots (inputKvOf specs kwargs)
        (k.inputTypes.map fun p => (p.1, none))) n = none
      rw [lookupSlot_bindSlots]
      cases hf : (k.inputTypes.map fun p => (p.1, (none : Option InRef))).find?
          (fun q => q.1 == n) with
      | none => rfl
      | some p =>
          have hp1 : p.1 = n := by simpa using List.find?_some hf
          have hp2 : p.2 = none := by
            obtain ⟨r0, _, hr0⟩ := List.mem_map.mp (List.mem_of_find?_eq_some hf)
            rw [← hr0]
          show (match (inputKvOf specs kwargs).find? (fun kv => kv.1 == p.1) with
            | some kv => some kv.2
            | none => p.2) = none
          rw [hp1, inputKv_none_key specs kwargs n honly, hp2]

def wK9 : OpKind :=
  { opType := "leaky"
    inputTypes := [("x", ⟨false, .tensor [] "T"⟩), ("alpha", ⟨true, .tensor [0] "T"⟩)]
    typeDomains := [("T", [0])]
    typeInf := fun _ => []
    valueInf := none
    allow := ALL
    outNames := none }

def wKw9 : List (String × Option InRef) := [("x", some (.single 0)), ("alpha", none)]

def wSt9 : Store := [(0, ⟨"v", .tensor 0 [], none, []⟩)]

theorem none_bindings_ignored_witness :
    ∃ op1 st', opInit wK9 "o" 4 wKw9 wSt9 = .ok (op1, st') ∧
      lookupSlot op1.inputVars "alpha" = none := by
  have h := (none_bindings_ignored wK9 "o" 4 wKw9 wSt9
    [("x", ⟨false, .tensor [0] "T"⟩), ("alpha", ⟨true, .tensor [0] "T"⟩)]
    rfl (by decide) (by decide) (by decide)).2.2 "alpha"
    (by
      intro r hr
      rcases List.mem_cons.mp hr with hh | hh
      · have hfst : ("alpha" : String) = "x" := congrArg Prod.fst hh
        exact absurd hfst (by decide)
      · rcases List.mem_cons.mp hh with hh' | hh'
        · have hsnd : (some r : Option InRef) = none := congrArg Prod.snd hh'
          exact Option.noConfusion hsnd
        · cases hh')
    (by
      intro q hq hopt
      rcases List.mem_cons.mp hq with hh | hh
      · subst hh
        decide
      · rcases List.mem_cons.mp hh with hh' | hh'
        · subst hh'
          exact absurd hopt (by decide)
        · cases hh')
  exact h

/-! ### set_inputs: when re-inference runs, and what binding alone touches -/

/-- The name, declared type and symbolic value of a Value Node — everything
except the consumer registry. -/
def nodeCore (v : VarNode) : String × MILType × Option SArr :=
  (v.name, v.sym_type, v.sym_val)

theorem nodeCore_removeChildOp (st : Store) (id opId id' : Nat) :
    (storeGet (removeChildOp st id opId) id').map nodeCore =
      (storeGet st id').map nodeCore := by
  rw [storeGet_removeChildOp]
  by_cases h : id' = id
  · rw [if_pos h, h]
    cases storeGet st id <;> rfl
  · rw [if_neg h]

theorem nodeCore_addChildOp (st : Store) (id opId id' : Nat) :
    (storeGet (addChildOp st id opId) id').map nodeCore =
      (storeGet st id').map nodeCore := by
  rw [storeGet_addChildOp]
  by_cases h : id' = id
  · rw [if_pos h, h]
    cases storeGet st id <;> rfl
  · rw [if_neg h]

theorem nodeCore_check_and_detach (st st' : Store) (n o opId : Nat) (nc : Bool)
    (h : check_and_detach st n o opId nc = .ok st') :
    ∀ id, (storeGet st' id).map nodeCore = (storeGet st id).map nodeCore := by
  simp only [check_and_detach] at h
  split at h
  · exact Except.noConfusion h
  · intro id
    rw [← Except.ok.inj h]
    exact nodeCore_removeChildOp st o opId id

theorem nodeCore_detachTupleLoop (opId : Nat) (nc : Bool) :
    ∀ (ps : List (Nat × Nat)) (st st' : Store),
    detachTupleLoop opId nc ps st = .ok st' →
    ∀ id, (storeGet st' id).map nodeCore = (storeGet st id).map nodeCore := by
  intro ps
  induction ps with
  | nil =>
      intro st st' h id
      unfold detachTupleLoop at h
      cases h
      rfl
  | cons p rest ih =>
      intro st st' h id
      unfold detachTupleLoop at h
      split at h
      · exact Except.noConfusion h
      · rename_i st1 hcd
        rw [ih st1 st' h id, nodeCore_check_and_detach _ _ _ _ _ _ hcd id]

theorem nodeCore_addChild_foldl (opId : Nat) :
    ∀ (ids : List Nat) (st : Store) (id : Nat),
    (storeGet (ids.foldl (fun s i => addChildOp s i opId) st) id).map nodeCore =
      (storeGet st id).map nodeCore := by
  intro ids
  induction ids with
  | nil => intro st id; rfl
  | cons i rest ih =>
      intro st id
      rw [List.foldl_cons, ih (addChildOp st i opId) id, nodeCore_addChildOp]

theorem nodeCore_setOneInput (opId : Nat) (nc : Bool)
    (acc : Store × List (String × Option InRef)) (kv : String × InRef)
    (acc' : Store × List (String × Option InRef))
    (h : setOneInput opId nc acc kv = .ok acc') :
    ∀ id, (storeGet acc'.1 id).map nodeCore = (storeGet acc.1 id).map nodeCore := by
  simp only [setOneInput] at h
  split at h
  · exact Except.noConfusion h
  · rename_i st1 hdet
    intro id
    have hstep : (storeGet st1 id).map nodeCore =
        (storeGet acc.1 id).map nodeCore := by
      split at hdet
      all_goals first
        | exact nodeCore_check_and_detach _ _ _ _ _ _ hdet id
        | exact nodeCore_detachTupleLoop _ _ _ _ _ hdet id
        | rw [← Except.ok.inj hdet]
    rcases hk : kv.2 with newId | newIds
    · rw [hk] at h
      have hfst : addChildOp st1 newId opId = acc'.1 :=
        congrArg Prod.fst (Except.ok.inj h)
      rw [← hfst, nodeCore_addChildOp, hstep]
    · rw [hk] at h
      have hfst : newIds.foldl (fun s i => addChildOp s i opId) st1 = acc'.1 :=
        congrArg Prod.fst (Except.ok.inj h)
      rw [← hfst, nodeCore_addChild_foldl, hstep]

theorem nodeCore_setInputsLoop (opId : Nat) (nc : Bool) :
    ∀ (kvs : List (String × InRef))
      (acc acc' : Store × List (String × Option InRef)),
    setInputsLoop opId nc kvs acc = .ok acc' →
    ∀ id, (storeGet acc'.1 id).map nodeCore = (storeGet acc.1 id).map nodeCore := by
  intro kvs
  induction kvs with
  | nil =>
      intro acc acc' h id
      unfold setInputsLoop at h
      cases h
      rfl
  | cons kv rest ih =>
      intro acc acc' h id
      unfold setInputsLoop at h
      split at h
      · exact Except.noConfusion h
      · rename_i acc1 ho
        rw [ih acc1 acc' h id, nodeCore_setOneInput opId nc acc kv acc1 ho id]

/-- Binding inputs alone never touches an operation's output list, and
changes nothing about any Value Node but its consumer registry. -/
theorem validate_set_preserves (k : OpKind) (op : OpState) (st : Store)
    (kvs : List (String × InRef)) (nc : Bool) (op' : OpState) (st' : Store)
    (h : _validate_and_set_inputs k op st kvs nc = .ok (op', st')) :
    op'.outputVars = op.outputVars ∧
    ∀ id, (storeGet st' id).map nodeCore = (storeGet st id).map nodeCore := by
  unfold _validate_and_set_inputs at h
  split at h
  · exact Except.noConfusion h
  · split at h
    · exact Except.noConfusion h
    · split at h
      · exact Except.noConfusion h
      · rename_i res hloop
        have h2 := Except.ok.inj h
        have hop : ({ op with inputVars := res.2 } : OpState) = op' :=
          congrArg Prod.fst h2
        have hst : res.1 = st' := congrArg Prod.snd h2
        constructor
        · rw [← hop]
        · intro id
          rw [← hst]
          exact nodeCore_setInputsLoop op.opId nc kvs (st, op.inputVars) res hloop id

/-- Claim C10: `set_inputs` with `type_inference` and `no_check_var_types`
both set performs no re-inference — the call reduces to the
bind-then-recheck pipeline, the output Value Node list is unchanged and
every node in the heap keeps its name, type and value (only consumer
registries move); re-inference runs exactly when `type_inference` is
requested and type checking is not skipped; and required-input
completeness is re-verified on every successful call. -/
theorem set_inputs_skip_inference (k : OpKind) (op : OpState) (st : Store)
    (nextId : Nat) (kvs : List (String × InRef)) :
    (∀ nc ti : Bool, ¬(ti = true ∧ nc = false) →
      set_inputs k op st nextId nc ti kvs =
        (match _validate_and_set_inputs k op st kvs nc with
          | .error e => .error e
          | .ok (op1, st1) =>
              match _ensure_required_inputs k op1 with
              | .error e => .error e
              | .ok _ => .ok (op1, st1, nextId))) ∧
    (set_inputs k op st nextId false true kvs =
        (match _validate_and_set_inputs k op st kvs false with
          | .error e => .error e
          | .ok (op1, st1) =>
              match type_value_inference k op1 st1 nextId false with
              | .error e => .error e
              | .ok (op2, st2, nid2) =>
                  match _ensure_required_inputs k op2 with
                  | .error e => .error e
                  | .ok _ => .ok (op2, st2, nid2))) ∧
    (∀ op2 st2 nid2,
      set_inputs k op st nextId true true kvs = .ok (op2, st2, nid2) →
      op2.outputVars = op.outputVars ∧
      ∀ id, (storeGet st2 id).map nodeCore = (storeGet st id).map nodeCore) ∧
    (∀ (nc ti : Bool) op2 st2 nid2,
      set_inputs k op st nextId nc ti kvs = .ok (op2, st2, nid2) →
      _ensure_required_inputs k op2 = .ok ()) := by
  refine ⟨?_, ?_, ?_, ?_⟩
  · intro nc ti hncti
    have hcond : ¬(ti = true ∧ ¬ (nc = true)) := by
      rintro ⟨h1, h2⟩
      cases nc
      · exact hncti ⟨h1, rfl⟩
      · exact h2 rfl
    rcases hv : _validate_and_set_inputs k op st kvs nc with e | os
    · simp only [set_inputs, hv]
    · obtain ⟨op1, st1⟩ := os
      simp only [set_inputs, hv, if_neg hcond]
  · rfl
  · intro op2 st2 nid2 h
    have h' : (match _validate_and_set_inputs k op st kvs true with
        | Except.error e =>
            (Except.error e : Except MILErr (OpState × Store × Nat))
        | Except.ok (op1, st1) =>
            match _ensure_required_inputs k op1 with
            | Except.error e => Except.error e
            | Except.ok _ => Except.ok (op1, st1, nextId))
        = Except.ok (op2, st2, nid2) := h
    rcases hv : _validate_and_set_inputs k op st kvs true with e | os
    · rw [hv] at h'
      exact Except.noConfusion h'
    · obtain ⟨op1, st1⟩ := os
      rw [hv] at h'
      have h'' : (match _ensure_required_inputs k op1 with
          | Except.error e =>
              (Except.error e : Except MILErr (OpState × Store × Nat))
          | Except.ok _ => Except.ok (op1, st1, nextId))
          = Except.ok (op2, st2, nid2) := h'
      rcases he : _ensure_required_inputs k op1 with e | u
      · rw [he] at h''
        exact Except.noConfusion h''
      · rw [he] at h''
        have h3 : (Except.ok (op1, st1, nextId) :
            Except MILErr (OpState × Store × Nat)) = .ok (op2, st2, nid2) := h''
        have h4 := Except.ok.inj h3
        have hop : op1 = op2 := congrArg (fun t => t.1) h4
        have hst : st1 = st2 := congrArg (fun t => t.2.1) h4
        obtain ⟨ho1, hcore⟩ := validate_set_preserves k op st kvs true op1 st1 hv
        exact ⟨hop ▸ ho1, fun id => hst ▸ hcore id⟩
  · intro nc ti op2 st2 nid2 h
    unfold set_inputs at h
    split at h
    · exact Except.noConfusion h
    · split at h
      · exact Except.noConfusion h
      · split at h
        · exact Except.noConfusion h
        · rename_i u hens
          rename_i a b c hif x
          have h4 := Except.ok.inj h
          have hop : a = op2 := congrArg (fun t => t.1) h4
          rw [← hop]
          exact hens

def wK10 : OpKind :=
  { opType := "unit"
    inputTypes := [("x", ⟨false, .tensor [0] "T"⟩)]
    typeDomains := [("T", [0])]
    typeInf := fun _ => []
    valueInf := none
    allow := ALL
    outNames := none }

def wOp10 : OpState := ⟨"o", 7, [("x", some (.single 0))], some [5]⟩

def wSt10 : Store :=
  [(0, ⟨"a", .tensor 0 [], none, [7]⟩),
   (1, ⟨"b", .tensor 0 [], none, []⟩),
   (5, ⟨"out", .tensor 0 [], none, []⟩)]

def wOp10' : OpState := ⟨"o", 7, [("x", some (.single 1))], some [5]⟩

def wSt10' : Store :=
  [(0, ⟨"a", .tensor 0 [], none, []⟩),
   (1, ⟨"b", .tensor 0 [], none, [7]⟩),
   (5, ⟨"out", .tensor 0 [], none, []⟩)]

theorem set_inputs_skip_inference_witness :
    set_inputs wK10 wOp10 wSt10 9 true true [("x", .single 1)] =
        .ok (wOp10', wSt10', 9) ∧
      wOp10'.outputVars = wOp10.outputVars ∧
      (storeGet wSt10' 5).map nodeCore = (storeGet wSt10 5).map nodeCore ∧
      _ensure_required_inputs wK10 wOp10' = .ok () ∧
      set_inputs wK10 wOp10 wSt10 9 true false [("x", .single 1)] =
        (match _validate_and_set_inputs wK10 wOp10 wSt10 [("x", .single 1)] true with
          | .error e => .error e
          | .ok (op1, st1) =>
              match _ensure_required_inputs wK10 op1 with
              | .error e => .error e
              | .ok _ => .ok (op1, st1, 9)) := by
  have h := set_inputs_skip_inference wK10 wOp10 wSt10 9 [("x", .single 1)]
  have heq : set_inputs wK10 wOp10 wSt10 9 true true [("x", .single 1)] =
      .ok (wOp10', wSt10', 9) := rfl
  exact ⟨heq, (h.2.2.1 wOp10' wSt10' 9 heq).1, (h.2.2.1 wOp10' wSt10' 9 heq).2 5,
    h.2.2.2 true true wOp10' wSt10' 9 heq, h.1 true false (by decide)⟩

end MILOp
